import Mathlib

/-!
Verification development for the Mercury generative-design repository.

The TypeScript sources are shallowly embedded: JavaScript numbers are
modelled by exact rationals, 32-bit unsigned integer arithmetic by natural
numbers reduced modulo 2^32, stateful pseudo-random streams by a pure
output function indexed by the call number, and in-place array mutation by
functional updates on lists.  Transcendental Math functions (cos, sin,
pow, sqrt, and the constant pi) are abstracted as parameters, since every
property proved here is independent of their values.
-/

namespace Mercury

/-- 2^32, the modulus of JavaScript unsigned 32-bit arithmetic. -/
def U32 : ℕ := 4294967296

/-- JavaScript ToUint32 applied to an integer value. -/
def toU32 (x : ℤ) : ℕ := (x % (U32 : ℤ)).toNat

/-- The additive state increment 0x6d2b79f5 of mulberry32. -/
def MB_INC : ℕ := 1831565813

/-- The mulberry32 mixing rounds applied to the (already incremented)
state t, producing the raw 32-bit output.  Mirrors the body of the
closure returned by mulberry32 in createSketch.ts (and the identical
copies in the other sketch files): two rounds of xor-shift with
odd-multiplier scrambling, all in 32-bit arithmetic. -/
def mbMix (t : ℕ) : ℕ :=
  let t0 := t % U32
  let n1 := (Nat.xor t0 (t0 / 2 ^ 15) * Nat.lor t0 1) % U32
  let n2 := Nat.xor n1 ((n1 + Nat.xor n1 (n1 / 2 ^ 7) * Nat.lor n1 61 % U32) % U32)
  Nat.xor n2 (n2 / 2 ^ 14)

/-- Raw 32-bit output of call number k (0-based) of the stream
mulberry32(seed) from createSketch.ts, where the seed is first reduced
with an unsigned shift (seed >>> 0) and the state is then incremented by
MB_INC once per call. -/
def mulberry32Raw (seed : ℤ) (k : ℕ) : ℕ := mbMix (toU32 seed + (k + 1) * MB_INC)

/-- Raw 32-bit output of call number k of the seedData.ts copy of
mulberry32, which initializes its state with the seed as-is (no unsigned
shift); the ToUint32 conversion happens inside the mixing operations. -/
def mulberry32RawSD (seed : ℤ) (k : ℕ) : ℕ := mbMix (toU32 (seed + (k + 1) * MB_INC))

/-- The float in [0,1) returned by call k of mulberry32(seed)
(createSketch.ts variant): the raw 32-bit output divided by 2^32. -/
def mbFloat (seed : ℤ) (k : ℕ) : ℚ := (mulberry32Raw seed k : ℚ) / (U32 : ℚ)

/-- The float returned by call k of the seedData.ts variant. -/
def mbFloatSD (seed : ℤ) (k : ℕ) : ℚ := (mulberry32RawSD seed k : ℚ) / (U32 : ℚ)

theorem mbMix_lt (t : ℕ) : mbMix t < U32 := by
  have hU : (0:ℕ) < U32 := by norm_num [U32]
  have h32 : U32 = 2 ^ 32 := by norm_num [U32]
  have key : ∀ a b : ℕ, Nat.xor (a % U32) (b % U32) < U32 := by
    intro a b
    rw [h32]
    exact Nat.xor_lt_two_pow (h32 ▸ Nat.mod_lt _ hU) (h32 ▸ Nat.mod_lt _ hU)
  simp only [mbMix]
  rw [h32]
  refine Nat.xor_lt_two_pow (h32 ▸ key _ _) ?_
  exact lt_of_le_of_lt (Nat.div_le_self _ _) (h32 ▸ key _ _)

theorem mbMix_mod (t : ℕ) : mbMix (t % U32) = mbMix t := by
  have h : t % U32 % U32 = t % U32 := Nat.mod_mod_of_dvd t dvd_rfl
  simp only [mbMix, h]

theorem mulberry32Raw_lt (seed : ℤ) (k : ℕ) : mulberry32Raw seed k < U32 :=
  mbMix_lt _

theorem mulberry32RawSD_lt (seed : ℤ) (k : ℕ) : mulberry32RawSD seed k < U32 :=
  mbMix_lt _

theorem mbFloat_nonneg (seed : ℤ) (k : ℕ) : 0 ≤ mbFloat seed k := by
  unfold mbFloat
  positivity

theorem mbFloat_lt_one (seed : ℤ) (k : ℕ) : mbFloat seed k < 1 := by
  unfold mbFloat
  rw [div_lt_one (by norm_num [U32])]
  exact_mod_cast mulberry32Raw_lt seed k

theorem mbMix_congr {a b : ℕ} (h : a % U32 = b % U32) : mbMix a = mbMix b := by
  rw [← mbMix_mod a, ← mbMix_mod b, h]

theorem toU32_add_nat (s : ℤ) (m : ℕ) : toU32 (s + m) = (toU32 s + m) % U32 := by
  have hM : ((U32 : ℤ)) ≠ 0 := by norm_num [U32]
  have h1 : (0:ℤ) ≤ (s + (m:ℤ)) % (U32:ℤ) := Int.emod_nonneg _ hM
  have h2 : (0:ℤ) ≤ s % (U32:ℤ) := Int.emod_nonneg _ hM
  unfold toU32
  zify
  rw [Int.toNat_of_nonneg h1, Int.toNat_of_nonneg h2, Int.emod_add_emod]

theorem toU32_lt (s : ℤ) : toU32 s < U32 := by
  unfold toU32
  have hM : (0:ℤ) < (U32 : ℤ) := by norm_num [U32]
  have := Int.emod_lt_of_pos s hM
  omega

/-- The seedData.ts copy of mulberry32 (seed used as-is) and the
createSketch.ts copy (seed reduced by an unsigned shift first) produce
identical raw outputs for every integer seed, because the mixing step
only depends on the state modulo 2^32. -/
theorem mulberry32RawSD_eq (seed : ℤ) (k : ℕ) :
    mulberry32RawSD seed k = mulberry32Raw seed k := by
  unfold mulberry32RawSD mulberry32Raw
  apply mbMix_congr
  rw [show seed + ((k : ℤ) + 1) * (MB_INC : ℕ) = seed + (((k + 1) * MB_INC : ℕ) : ℤ) by
    push_cast
    ring]
  rw [toU32_add_nat]
  exact Nat.mod_mod_of_dvd _ dvd_rfl

/-- C9: for every integer seed, every float produced by the mulberry32
stream lies in [0,1), and the two textual copies of the generator in the
repository (createSketch.ts, which reduces the seed with an unsigned
shift, and seedData.ts, which uses it as-is) produce the identical,
exact sequence for the same seed.  Determinism of a fixed copy is
definitional in this pure embedding: the output is a function of the
seed and the call number only. -/
theorem C9_mulberry_unit_interval :
    ∀ (seed : ℤ) (k : ℕ),
      0 ≤ mbFloat seed k ∧ mbFloat seed k < 1 ∧ mbFloatSD seed k = mbFloat seed k :=
  fun seed k => ⟨mbFloat_nonneg seed k, mbFloat_lt_one seed k, by
    unfold mbFloatSD mbFloat
    rw [mulberry32RawSD_eq]⟩

/-! ### Fisher-Yates shuffles of the draw-index arrays

The sketches shuffle an Int32Array in place with the loop
for (i = len - 1; i > 0; i -= 1) { j = floor(rand() * (i + 1)); swap i j }.
The in-place swap (tmp = a[i]; a[i] = a[j]; a[j] = tmp) becomes a
functional double List.set, and the stateful rand() becomes an output
function applied at an explicit call counter. -/

/-- The three-assignment swap of positions i and j, exactly as written in
the source: read a[i], overwrite a[i] with a[j], overwrite a[j] with the
saved value. -/
def swapAt {α : Type} (d : α) (v : List α) (i j : ℕ) : List α :=
  let tmp := v.getD i d
  (v.set i (v.getD j d)).set j tmp

/-- The countdown loop of the shuffle; the first argument is the current
value of the loop variable i (the loop body runs while i is positive). -/
def fyAux {α : Type} (d : α) (r : ℕ → ℚ) : ℕ → List α → ℕ → List α × ℕ
  | 0, v, c => (v, c)
  | i + 1, v, c =>
    let j := (⌊r c * ((i : ℚ) + 2)⌋).toNat
    fyAux d r i (swapAt d v (i + 1) j) (c + 1)

/-- One full Fisher-Yates pass over the list, starting at i = length - 1. -/
def fisherYates {α : Type} (d : α) (r : ℕ → ℚ) (v : List α) : List α :=
  (fyAux d r (v.length - 1) v 0).1

theorem cons_set_perm {α : Type} (d : α) :
    ∀ (t : List α) (k : ℕ) (a : α), k < t.length →
      (t.getD k d :: t.set k a).Perm (a :: t)
  | [], k, a, h => absurd h (by simp)
  | b :: s, 0, a, _ => by
    simpa using List.Perm.swap a b s
  | b :: s, k + 1, a, h => by
    have hk : k < s.length := by simpa using h
    have h1 : (s.getD k d :: b :: s.set k a).Perm (b :: s.getD k d :: s.set k a) :=
      List.Perm.swap b (s.getD k d) _
    have h2 : (b :: s.getD k d :: s.set k a).Perm (b :: a :: s) :=
      (cons_set_perm d s k a hk).cons b
    have h3 : (b :: a :: s).Perm (a :: b :: s) := List.Perm.swap a b s
    simpa using (h1.trans h2).trans h3

theorem swapAt_perm {α : Type} (d : α) :
    ∀ (v : List α) (i j : ℕ), i < v.length → j < v.length → (swapAt d v i j).Perm v
  | [], i, j, hi, _ => absurd hi (by simp)
  | a :: t, 0, 0, _, _ => by
    simp [swapAt]
  | a :: t, 0, j + 1, _, hj => by
    have hjt : j < t.length := by simpa using hj
    simpa [swapAt] using cons_set_perm d t j a hjt
  | a :: t, i + 1, 0, hi, _ => by
    have hit : i < t.length := by simpa using hi
    simpa [swapAt] using cons_set_perm d t i a hit
  | a :: t, i + 1, j + 1, hi, hj => by
    have hit : i < t.length := by simpa using hi
    have hjt : j < t.length := by simpa using hj
    simpa [swapAt] using (swapAt_perm d t i j hit hjt).cons a

theorem floor_rand_le {q : ℚ} (_h0 : 0 ≤ q) (h1 : q < 1) (i : ℕ) :
    (⌊q * ((i : ℚ) + 2)⌋).toNat ≤ i + 1 := by
  have hpos : (0:ℚ) < (i : ℚ) + 2 := by positivity
  have hlt : q * ((i : ℚ) + 2) < (i : ℚ) + 2 := by
    nlinarith
  have hfl : ⌊q * ((i : ℚ) + 2)⌋ < (i : ℤ) + 2 := by
    apply Int.floor_lt.mpr
    push_cast
    exact hlt
  omega

theorem fyAux_perm {α : Type} (d : α) (r : ℕ → ℚ) (hr : ∀ n, 0 ≤ r n ∧ r n < 1) :
    ∀ (k : ℕ) (v : List α) (c : ℕ), k < v.length → ((fyAux d r k v c).1).Perm v
  | 0, v, _, _ => List.Perm.refl v
  | k + 1, v, c, hk => by
    have hj : (⌊r c * ((k : ℚ) + 2)⌋).toNat < v.length :=
      lt_of_le_of_lt (floor_rand_le (hr c).1 (hr c).2 k) hk
    have hp := swapAt_perm d v (k + 1) _ hk hj
    have hlen : (swapAt d v (k + 1) ((⌊r c * ((k : ℚ) + 2)⌋).toNat)).length = v.length :=
      hp.length_eq
    have hrec := fyAux_perm d r hr k (swapAt d v (k + 1) ((⌊r c * ((k : ℚ) + 2)⌋).toNat))
      (c + 1) (by rw [hlen]; omega)
    simpa [fyAux] using hrec.trans hp

theorem fisherYates_perm {α : Type} (d : α) (r : ℕ → ℚ)
    (hr : ∀ n, 0 ≤ r n ∧ r n < 1) (v : List α) : (fisherYates d r v).Perm v := by
  unfold fisherYates
  rcases v with - | ⟨a, t⟩
  · exact List.Perm.refl _
  · exact fyAux_perm d r hr (a :: t).length.pred (a :: t) 0 (by simp)

/-- The one-time shuffle of the draw-index list in createSketch.ts,
driven by mulberry32(RNG_SEED). -/
def shuffleDrawIdxOnce (rngSeed : ℤ) (drawIdx : List ℤ) : List ℤ :=
  fisherYates 0 (mbFloat rngSeed) drawIdx

/-- The seed (RNG_SEED xor 0x9e3779b9 xor frameCount * 8191) >>> 0 used by
shuffleDrawIdxBottom in the DirectionTwo sketches. -/
def bottomShuffleSeed (rngSeed : ℤ) (frameCount : ℕ) : ℤ :=
  (Nat.xor (Nat.xor (toU32 rngSeed) 2654435769) (toU32 ((frameCount : ℤ) * 8191)) : ℕ)

/-- The per-frame reshuffle of the bottom layer draw indices; returns the
list unchanged when it is empty, otherwise runs a full Fisher-Yates pass
with a stream seeded from (RNG_SEED, frameCount). -/
def shuffleDrawIdxBottom (rngSeed : ℤ) (frameCount : ℕ) (drawIdx : List ℤ) : List ℤ :=
  if drawIdx.length = 0 then drawIdx
  else fisherYates 0 (mbFloat (bottomShuffleSeed rngSeed frameCount)) drawIdx

/-- The per-frame reshuffle of the top layer, seeded from
(RNG_SEED + frameCount * 10007) >>> 0; the unsigned shift is subsumed by
the ToUint32 reduction inside the stream model. -/
def shuffleDrawIdxTop (rngSeed : ℤ) (frameCount : ℕ) (drawIdx : List ℤ) : List ℤ :=
  if drawIdx.length = 0 then drawIdx
  else fisherYates 0 (mbFloat (rngSeed + (frameCount : ℤ) * 10007)) drawIdx

theorem mbFloat_bounds (seed : ℤ) : ∀ n, 0 ≤ mbFloat seed n ∧ mbFloat seed n < 1 :=
  fun n => ⟨mbFloat_nonneg seed n, mbFloat_lt_one seed n⟩

/-- C10: every shuffle of the draw-index list (the one-time
shuffleDrawIdxOnce of createSketch.ts and the per-frame variants of the
DirectionTwo sketches) returns a permutation of its input: the length
and the multiset of indices are preserved, no index is duplicated or
lost. -/
theorem C10_shuffle_perm :
    ∀ (rngSeed : ℤ) (frameCount : ℕ) (v : List ℤ),
      (shuffleDrawIdxOnce rngSeed v).Perm v ∧
      (shuffleDrawIdxTop rngSeed frameCount v).Perm v ∧
      (shuffleDrawIdxBottom rngSeed frameCount v).Perm v := by
  intro rngSeed frameCount v
  refine ⟨fisherYates_perm 0 _ (mbFloat_bounds _) v, ?_, ?_⟩
  · unfold shuffleDrawIdxTop
    split
    · exact List.Perm.refl v
    · exact fisherYates_perm 0 _ (mbFloat_bounds _) v
  · unfold shuffleDrawIdxBottom
    split
    · exact List.Perm.refl v
    · exact fisherYates_perm 0 _ (mbFloat_bounds _) v

theorem swapAt_map {α β : Type} (d1 : α) (d2 : β) (g : α → β) (l : List α) (i j : ℕ)
    (hi : i < l.length) (hj : j < l.length) :
    swapAt d2 (l.map g) i j = (swapAt d1 l i j).map g := by
  unfold swapAt
  have hi2 : i < (l.map g).length := by simpa using hi
  have hj2 : j < (l.map g).length := by simpa using hj
  have hi3 : i < (l.set i (l.getD j d1)).length := by simpa using hi
  rw [List.getD_eq_getElem _ _ hi2, List.getD_eq_getElem _ _ hj2,
      List.getD_eq_getElem _ _ hi, List.getD_eq_getElem _ _ hj,
      List.getElem_map, List.getElem_map, List.map_set, List.map_set]

theorem fyAux_map {α β : Type} (d1 : α) (d2 : β) (g : α → β) (r : ℕ → ℚ)
    (hr : ∀ n, 0 ≤ r n ∧ r n < 1) :
    ∀ (k : ℕ) (l : List α) (c : ℕ), k < l.length →
      (fyAux d2 r k (l.map g) c).1 = ((fyAux d1 r k l c).1).map g
  | 0, _, _, _ => rfl
  | k + 1, l, c, hk => by
    have hj : (⌊r c * ((k : ℚ) + 2)⌋).toNat < l.length :=
      lt_of_le_of_lt (floor_rand_le (hr c).1 (hr c).2 k) hk
    have hswap := swapAt_map d1 d2 g l (k + 1) ((⌊r c * ((k : ℚ) + 2)⌋).toNat) hk hj
    have hlen : (swapAt d1 l (k + 1) ((⌊r c * ((k : ℚ) + 2)⌋).toNat)).length = l.length :=
      (swapAt_perm d1 l _ _ hk hj).length_eq
    have hrec := fyAux_map d1 d2 g r hr k
      (swapAt d1 l (k + 1) ((⌊r c * ((k : ℚ) + 2)⌋).toNat)) (c + 1) (by rw [hlen]; omega)
    simp only [fyAux]
    rw [hswap]
    exact hrec

theorem fisherYates_map {α β : Type} (d1 : α) (d2 : β) (g : α → β) (r : ℕ → ℚ)
    (hr : ∀ n, 0 ≤ r n ∧ r n < 1) (l : List α) :
    fisherYates d2 r (l.map g) = (fisherYates d1 r l).map g := by
  unfold fisherYates
  rcases l with - | ⟨a, t⟩
  · rfl
  · have hlen : ((a :: t).map g).length = (a :: t).length := by simp
    rw [hlen]
    exact fyAux_map d1 d2 g r hr (a :: t).length.pred (a :: t) 0 (by simp)

/-- The list of positions 0, 1, ..., n-1 as integer draw indices. -/
def rangeIdx (n : ℕ) : List ℤ := List.map Int.ofNat (List.range n)

theorem map_getD_range (v : List ℤ) :
    List.map (fun i => v.getD i.toNat 0) (rangeIdx v.length) = v := by
  apply List.ext_getElem
  · simp [rangeIdx]
  · intro i h1 h2
    simp only [rangeIdx, List.getElem_map, List.getElem_range]
    exact List.getD_eq_getElem v 0 h2

/-- C5 (amended): each per-frame reshuffle applies a position permutation
that is a pure function of (base seed, frame count, list length) to the
current list: shuffling any list v is the same as shuffling the list of
positions 0..length-1 with the same seed and frame count and then reading
v at the resulting positions.  The operation is therefore deterministic
and data-independent per frame count, but it is not idempotent: calling
it again composes the same permutation once more (see the
counterexample), so the list state after n calls depends on n. -/
theorem C5_reshuffle_amended :
    ∀ (rngSeed : ℤ) (frameCount : ℕ) (v : List ℤ),
      shuffleDrawIdxBottom rngSeed frameCount v
        = List.map (fun i => v.getD i.toNat 0)
            (shuffleDrawIdxBottom rngSeed frameCount (rangeIdx v.length)) ∧
      shuffleDrawIdxTop rngSeed frameCount v
        = List.map (fun i => v.getD i.toNat 0)
            (shuffleDrawIdxTop rngSeed frameCount (rangeIdx v.length)) := by
  intro rngSeed frameCount v
  constructor
  · unfold shuffleDrawIdxBottom
    rcases Nat.eq_zero_or_pos v.length with hz | hpos
    · rcases List.length_eq_zero.mp hz with rfl
      simp [rangeIdx]
    · have hnz : ¬ v.length = 0 := by omega
      have hnz2 : ¬ (rangeIdx v.length).length = 0 := by
        simpa [rangeIdx] using hnz
      rw [if_neg hnz, if_neg hnz2]
      conv_lhs => rw [← map_getD_range v]
      exact fisherYates_map 0 0 _ _ (mbFloat_bounds _) _
  · unfold shuffleDrawIdxTop
    rcases Nat.eq_zero_or_pos v.length with hz | hpos
    · rcases List.length_eq_zero.mp hz with rfl
      simp [rangeIdx]
    · have hnz : ¬ v.length = 0 := by omega
      have hnz2 : ¬ (rangeIdx v.length).length = 0 := by
        simpa [rangeIdx] using hnz
      rw [if_neg hnz, if_neg hnz2]
      conv_lhs => rw [← map_getD_range v]
      exact fisherYates_map 0 0 _ _ (mbFloat_bounds _) _

/-- C5 (counterexample): the per-frame reshuffle is not idempotent.
With the default seed 1337 and frame count 0, shuffling the draw-index
list [10, 11, 12, 13] once yields [11, 10, 12, 13], and shuffling the
result again with the same frame count yields [10, 11, 12, 13], not the
once-shuffled state: the pass permutes the current array contents in
place instead of recomputing a canonical order, so repeated calls with
the same frame count keep composing the same permutation. -/
theorem C5_counterexample :
    shuffleDrawIdxBottom 1337 0 (shuffleDrawIdxBottom 1337 0 [10, 11, 12, 13])
      ≠ shuffleDrawIdxBottom 1337 0 [10, 11, 12, 13] := by
  have h0 : mulberry32Raw (bottomShuffleSeed 1337 0) 0 = 3353182730 := by decide
  have h1 : mulberry32Raw (bottomShuffleSeed 1337 0) 1 = 3501050048 := by decide
  have h2 : mulberry32Raw (bottomShuffleSeed 1337 0) 2 = 1644235792 := by decide
  have e1 : shuffleDrawIdxBottom 1337 0 [10, 11, 12, 13] = [11, 10, 12, 13] := by
    unfold shuffleDrawIdxBottom fisherYates
    norm_num
    simp only [fyAux, swapAt, mbFloat, h0, h1, h2]
    norm_num [U32]
    decide
  have e2 : shuffleDrawIdxBottom 1337 0 [11, 10, 12, 13] = [10, 11, 12, 13] := by
    unfold shuffleDrawIdxBottom fisherYates
    norm_num
    simp only [fyAux, swapAt, mbFloat, h0, h1, h2]
    norm_num [U32]
    decide
  rw [e1, e2]
  decide

/-! ### seedData.ts: seeded preset factory

createSeededPresets draws six values per preset from one shared
mulberry32 stream (randomRange for maxPixels, brightnessOffset,
contrastFactor, a bare rand() for drawAsRects, then randomRange for
shuffleEveryNFrames and rngSeed).  The shared stream is embedded as the
output function mbFloatSD applied at explicit call counters: item number
i consumes calls c, c+1, ..., c+5 where c is the counter after the
previous items. -/

/-- The tunable variables of one preset, as sampled by seedData.ts
(pixelScale is the constant 2 in the source). -/
structure SketchVariables where
  pixelScale : ℤ
  maxPixels : ℤ
  brightnessOffset : ℤ
  contrastFactor : ℤ
  drawAsRects : Bool
  shuffleEveryNFrames : ℤ
  rngSeed : ℤ

instance : Inhabited SketchVariables :=
  ⟨{ pixelScale := 0, maxPixels := 0, brightnessOffset := 0, contrastFactor := 0,
     drawAsRects := false, shuffleEveryNFrames := 0, rngSeed := 0 }⟩

/-- randomRange(rand, min, max) = min + rand() * (max - min), with the
stream call made at counter c. -/
def randomRange (r : ℕ → ℚ) (lo hi : ℚ) (c : ℕ) : ℚ := lo + r c * (hi - lo)

/-- The variables of one preset, sampled from stream r starting at call
counter c; the six draws happen in the source order. -/
def presetVariablesFrom (r : ℕ → ℚ) (c : ℕ) : SketchVariables :=
  { pixelScale := 2
    maxPixels := ⌊randomRange r 5000 15000 c⌋
    brightnessOffset := ⌊randomRange r (-24) 0 (c + 1)⌋
    contrastFactor := ⌊randomRange r 0 40 (c + 2)⌋
    drawAsRects := decide (0 < r (c + 3))
    shuffleEveryNFrames := ⌊randomRange r 0 60 (c + 4)⌋
    rngSeed := ⌊randomRange r 1 99999 (c + 5)⌋ }

/-- The Array.from loop of createSeededPresets: n remaining items,
shared-stream call counter c. -/
def createSeededPresetsAux (seed : ℤ) : ℕ → ℕ → List SketchVariables
  | 0, _ => []
  | n + 1, c => presetVariablesFrom (mbFloatSD seed) c :: createSeededPresetsAux seed n (c + 6)

/-- createSeededPresets(seed, count): the list of sampled variable
bundles (the accompanying name strings carry no data and are omitted). -/
def createSeededPresets (seed : ℤ) (count : ℕ) : List SketchVariables :=
  createSeededPresetsAux seed count 0

/-- Modelled from the spec: the per-item seed
(topSeed + i * LARGE_PRIME) mod 2^32 of section 4.6, with the constant
LARGE_PRIME realized as 2399460286 = (6 * 0x6d2b79f5) mod 2^32, six
state increments of the shared stream. -/
def perItemSeed (topSeed : ℤ) (i : ℕ) : ℤ :=
  (topSeed + (i : ℤ) * 2399460286) % 4294967296

theorem createSeededPresetsAux_getD (seed : ℤ) :
    ∀ (n i c : ℕ), i < n →
      (createSeededPresetsAux seed n c).getD i default
        = presetVariablesFrom (mbFloatSD seed) (c + 6 * i)
  | 0, i, _, h => absurd h (by omega)
  | n + 1, 0, c, _ => by
    simp [createSeededPresetsAux]
  | n + 1, i + 1, c, h => by
    simp only [createSeededPresetsAux, List.getD_cons_succ]
    rw [createSeededPresetsAux_getD seed n i (c + 6) (by omega)]
    congr 1
    omega

theorem toU32_congr {a b : ℤ} (h : a % (U32 : ℤ) = b % (U32 : ℤ)) : toU32 a = toU32 b := by
  unfold toU32
  rw [h]

theorem mbFloatSD_shift (seed : ℤ) (i k : ℕ) :
    mbFloatSD seed (6 * i + k) = mbFloatSD (perItemSeed seed i) k := by
  unfold mbFloatSD mulberry32RawSD
  congr 2
  apply mbMix_congr
  rw [Nat.mod_eq_of_lt (toU32_lt _), Nat.mod_eq_of_lt (toU32_lt _)]
  apply toU32_congr
  unfold perItemSeed
  have hU : ((U32 : ℕ) : ℤ) = 4294967296 := by norm_num [U32]
  rw [hU, Int.emod_add_emod]
  push_cast [MB_INC]
  omega

theorem presetVariablesFrom_congr {r1 r2 : ℕ → ℚ} {c1 c2 : ℕ}
    (h : ∀ k, k < 6 → r1 (c1 + k) = r2 (c2 + k)) :
    presetVariablesFrom r1 c1 = presetVariablesFrom r2 c2 := by
  have h0 := h 0 (by omega)
  have h1 := h 1 (by omega)
  have h2 := h 2 (by omega)
  have h3 := h 3 (by omega)
  have h4 := h 4 (by omega)
  have h5 := h 5 (by omega)
  simp only [Nat.add_zero] at h0
  unfold presetVariablesFrom randomRange
  rw [h0, h1, h2, h3, h4, h5]

/-- C4: item i of createSeededPresets(topSeed, count) is sampled exactly
as if a fresh mulberry32 stream had been created from the per-item seed
(topSeed + i * LARGE_PRIME) mod 2^32 with LARGE_PRIME = 2399460286
= (6 * 0x6d2b79f5) mod 2^32: the shared stream advances its 32-bit state
by the fixed constant 0x6d2b79f5 once per draw and each item consumes
exactly six draws, so the draws of item i coincide with the first six
outputs of a fresh stream seeded at the per-item seed.  In this pure
embedding the item is a function of (topSeed, i) alone, so item i always
receives the same per-item seed and the same draw sequence. -/
theorem C4_preset_per_item_seed :
    ∀ (seed : ℤ) (count i : ℕ), i < count →
      (createSeededPresets seed count).getD i default
        = presetVariablesFrom (mbFloatSD (perItemSeed seed i)) 0 := by
  intro seed count i hi
  unfold createSeededPresets
  rw [createSeededPresetsAux_getD seed count i 0 hi]
  apply presetVariablesFrom_congr
  intro k hk
  rw [show 0 + 6 * i + k = 6 * i + k by omega, mbFloatSD_shift seed i k]
  congr 1
  omega

/-- Witness for C4 at the default configuration seed 20260209, count 8,
item 1. -/
theorem C4_preset_per_item_seed_witness :
    1 < 8 ∧
      (createSeededPresets 20260209 8).getD 1 default
        = presetVariablesFrom (mbFloatSD (perItemSeed 20260209 1)) 0 :=
  ⟨by norm_num, C4_preset_per_item_seed 20260209 8 1 (by norm_num)⟩

/-! ### Brightness/contrast pixel transforms -/

/-- clamp255 from the sketch files: Math.max(0, Math.min(255, value)). -/
def clamp255 (value : ℚ) : ℚ := max 0 (min 255 value)

/-- The resolution CONTRAST_FACTOR = vars.contrastFactor ?? 10 in
createSketch.ts: a supplied value reaches adjustContrast as-is, with no
clamping or domain restriction anywhere on the path. -/
def contrastFactorResolved (v : Option ℚ) : ℚ := v.getD 10

/-- The denominator 255 * (259 - contrastFactor) of the contrast scale
computed inside adjustContrast. -/
def contrastDenominator (contrastFactor : ℚ) : ℚ := 255 * (259 - contrastFactor)

/-- factor = (259 * (contrastFactor + 255)) / (255 * (259 - contrastFactor)). -/
def contrastScale (contrastFactor : ℚ) : ℚ :=
  259 * (contrastFactor + 255) / contrastDenominator contrastFactor

/-- One channel of adjustContrast: clamp255(factor * (p - 128) + 128). -/
def adjustContrastChannel (contrastFactor p : ℚ) : ℚ :=
  clamp255 (contrastScale contrastFactor * (p - 128) + 128)

/-- C3 (counterexample): nothing restricts the contrast factor before
use.  A variables object carrying contrastFactor = 259 resolves to the
factor 259 itself (vars.contrastFactor ?? 10 applies no clamp), and at
259 the denominator 255 * (259 - contrastFactor) of the contrast formula
is exactly zero, contradicting the claim that the factor domain is
restricted so that the denominator is non-zero. -/
theorem C3_counterexample :
    contrastFactorResolved (some 259) = 259 ∧
      contrastDenominator (contrastFactorResolved (some 259)) = 0 := by
  constructor
  · rfl
  · norm_num [contrastDenominator, contrastFactorResolved]

theorem mbFloatSD_bounds (seed : ℤ) (n : ℕ) : 0 ≤ mbFloatSD seed n ∧ mbFloatSD seed n < 1 := by
  have h : mbFloatSD seed n = mbFloat seed n := by
    unfold mbFloatSD mbFloat
    rw [mulberry32RawSD_eq]
  rw [h]
  exact ⟨mbFloat_nonneg seed n, mbFloat_lt_one seed n⟩

/-- C3 (amended): the code applies no domain restriction to the contrast
factor, and a supplied 259 makes the denominator zero (see the
counterexample).  What does hold: for every factor other than the
singular 259, every output channel of adjustContrast lies in [0,255]
because of the final clamp255; and every contrast factor the in-repo
preset factory actually supplies is floor of a uniform draw from [0,40),
hence an integer in [0,39], so the singular value 259 is never produced
by the pipeline itself. -/
theorem C3_contrast_amended :
    (∀ contrastFactor p : ℚ, contrastFactor ≠ 259 →
        0 ≤ adjustContrastChannel contrastFactor p ∧
          adjustContrastChannel contrastFactor p ≤ 255) ∧
    (∀ (seed : ℤ) (count i : ℕ), i < count →
        0 ≤ ((createSeededPresets seed count).getD i default).contrastFactor ∧
          ((createSeededPresets seed count).getD i default).contrastFactor ≤ 39) := by
  constructor
  · intro contrastFactor p _
    unfold adjustContrastChannel clamp255
    constructor
    · exact le_max_left 0 _
    · exact max_le (by norm_num) (min_le_left 255 _)
  · intro seed count i hi
    unfold createSeededPresets
    rw [createSeededPresetsAux_getD seed count i 0 hi]
    unfold presetVariablesFrom randomRange
    dsimp only
    have hb := mbFloatSD_bounds seed (0 + 6 * i + 2)
    constructor
    · apply Int.floor_nonneg.mpr
      nlinarith [hb.1]
    · have hlt : (0:ℚ) + mbFloatSD seed (0 + 6 * i + 2) * (40 - 0) < 40 := by
        nlinarith [hb.2]
      have := Int.floor_lt.mpr (by push_cast; linarith : (0:ℚ) + mbFloatSD seed (0 + 6 * i + 2) * (40 - 0) < ((40:ℤ) : ℚ))
      omega

/-- Witness for C3 (amended) at factor 10 with channel value 300, and at
the preset item (seed 1337, count 1, item 0). -/
theorem C3_contrast_amended_witness :
    ((10:ℚ) ≠ 259 ∧ 0 ≤ adjustContrastChannel 10 300 ∧ adjustContrastChannel 10 300 ≤ 255) ∧
      ((0:ℕ) < 1 ∧ 0 ≤ ((createSeededPresets 1337 1).getD 0 default).contrastFactor ∧
        ((createSeededPresets 1337 1).getD 0 default).contrastFactor ≤ 39) :=
  ⟨⟨by norm_num, C3_contrast_amended.1 10 300 (by norm_num)⟩,
   ⟨by norm_num, C3_contrast_amended.2 1337 1 0 (by norm_num)⟩⟩

/-! ### Error-diffusion dithering (applyDither)

applyDither copies the pixel channels into per-channel Float32Array
working buffers, processes pixels row-major, quantizes each pixel with
nearestPalette, and pushes the quantization error to four not yet
processed neighbours with the Floyd-Steinberg weights, dropping
out-of-bounds targets and clamping each accumulation to [0,255].  The
buffers are modelled as a list of exact rational channel triples.  Two
ghost accumulators (outLoss, clampLoss) record the error energy dropped
at the canvas boundary and the energy destroyed by the clamp; they are
write-only bookkeeping and never influence the image buffer.  The final
loop stores the buffers back into target.pixels, a Uint8ClampedArray, so
every stored channel passes through the ToUint8Clamp conversion
(toUint8Clamp below): this matters because one palette entry of the
sideImage sketch has a channel above 255. -/

/-- One pixel: a triple of channel values. -/
abbrev Px : Type := ℚ × ℚ × ℚ

/-- Componentwise scaling of a channel triple. -/
def pxScale (factor : ℚ) (e : Px) : Px := (factor * e.1, factor * e.2.1, factor * e.2.2)

/-- Componentwise clamp to [0,255]. -/
def clampPx (p : Px) : Px := (clamp255 p.1, clamp255 p.2.1, clamp255 p.2.2)

/-- Squared channel distance dr*dr + dg*dg + db*db of nearestPalette. -/
def channelDistSq (c q : Px) : ℚ :=
  (c.1 - q.1) ^ 2 + (c.2.1 - q.2.1) ^ 2 + (c.2.2 - q.2.2) ^ 2

/-- One iteration of the nearestPalette scan; none models the initial
best = Number.POSITIVE_INFINITY, and only a strictly smaller distance
replaces the current pick (first nearest wins ties). -/
def nearestStep (c : Px) (acc : Option ℚ × Px) (q : Px) : Option ℚ × Px :=
  match acc.1 with
  | none => (some (channelDistSq c q), q)
  | some best =>
    if channelDistSq c q < best then (some (channelDistSq c q), q) else acc

/-- The full nearestPalette scan over a palette list; the initial pick is
palette[0] as in the source. -/
def nearestScan (pal : List Px) (c : Px) : Px :=
  (pal.foldl (nearestStep c) ((none : Option ℚ), pal.headD (0, 0, 0))).2

/-- The fixed palette of createSketch.ts (and of the first DirectionTwo
sketch): black twice, four saturated colors, and off-white. -/
def sketchPalette : List Px :=
  [(0, 0, 0), (0, 0, 0), (66, 133, 244), (234, 67, 53), (251, 188, 5),
   (52, 168, 83), (248, 249, 250)]

/-- nearestPalette of createSketch.ts. -/
def nearestPalette (c : Px) : Px := nearestScan sketchPalette c

/-- The fixed palette of the sideImage DirectionTwo sketch. -/
def palette3 : List Px :=
  [(0, 0, 0), (0, 0, 0), (66, 133, 244), (255, 50, 0), (234, 67, 53),
   (180, 288, 5), (52, 200, 3), (248, 249, 250)]

/-- The post-scan recolor of the sideImage sketch: three specific picks
are replaced by colors that are not palette entries. -/
def remap3 (pick : Px) : Px :=
  if pick = (234, 67, 53) then (208, 50, 117)
  else if pick = (66, 133, 244) then (82, 102, 235)
  else if pick = (248, 249, 250) then (255, 255, 255)
  else pick

/-- nearestPalette of the sideImage DirectionTwo sketch: the scan over
palette3 followed by the recolor. -/
def nearestPalette3 (c : Px) : Px := remap3 (nearestScan palette3 c)

/-- The set of colors the sideImage quantizer can output: the palette
with the three recolored entries substituted. -/
def palette3Out : List Px := palette3.map remap3

/-- The working state of the dither pass: the channel buffers plus the
two ghost accumulators. -/
structure DitherState where
  img : List Px
  outLoss : Px
  clampLoss : Px

/-- distribute(x, y, errR, errG, errB, factor): out-of-bounds targets are
dropped (recorded in outLoss), in-bounds targets accumulate the weighted
error clamped to [0,255] (the clamped-away part is recorded in
clampLoss). -/
def distribute (w h : ℕ) (x y : ℤ) (err : Px) (factor : ℚ) (s : DitherState) : DitherState :=
  if x < 0 ∨ (w : ℤ) ≤ x ∨ y < 0 ∨ (h : ℤ) ≤ y then
    { s with outLoss := s.outLoss + pxScale factor err }
  else
    let idx := (x + y * (w : ℤ)).toNat
    let old := s.img.getD idx (0, 0, 0)
    let tgt := old + pxScale factor err
    { img := s.img.set idx (clampPx tgt),
      outLoss := s.outLoss,
      clampLoss := s.clampLoss + (tgt - clampPx tgt) }

/-- The body of the double pixel loop at coordinates (x, y): quantize the
current buffer value, overwrite it with the pick, diffuse the error with
weights 7/16 right, 3/16 below-left, 5/16 below, 1/16 below-right. -/
def ditherPixel (near : Px → Px) (w h : ℕ) (x y : ℕ) (s : DitherState) : DitherState :=
  let idx := x + y * w
  let old := s.img.getD idx (0, 0, 0)
  let pick := near old
  let err := old - pick
  let s1 : DitherState := { s with img := s.img.set idx pick }
  let s2 := distribute w h ((x : ℤ) + 1) (y : ℤ) err (7 / 16) s1
  let s3 := distribute w h ((x : ℤ) - 1) ((y : ℤ) + 1) err (3 / 16) s2
  let s4 := distribute w h (x : ℤ) ((y : ℤ) + 1) err (5 / 16) s3
  distribute w h ((x : ℤ) + 1) ((y : ℤ) + 1) err (1 / 16) s4

/-- The inner loop over x = 0, ..., w-1 of row y. -/
def ditherRow (near : Px → Px) (w h y : ℕ) (s : DitherState) : DitherState :=
  (List.range w).foldl (fun acc x => ditherPixel near w h x y acc) s

/-- The outer loop over y = 0, ..., h-1. -/
def ditherPass (near : Px → Px) (w h : ℕ) (s : DitherState) : DitherState :=
  (List.range h).foldl (fun acc y => ditherRow near w h y acc) s

/-- The full dither pass on an image buffer, with ghost accounting. -/
def ditherAccounting (near : Px → Px) (w h : ℕ) (img : List Px) : DitherState :=
  ditherPass near w h { img := img, outLoss := (0, 0, 0), clampLoss := (0, 0, 0) }

/-- The final channel buffers of the dither pass (the Float32 working
arrays r, g, b after the double loop, before the write-back into the
pixel array; the stored pixels are applyDitherPixels below). -/
def applyDither (near : Px → Px) (w h : ℕ) (img : List Px) : List Px :=
  (ditherAccounting near w h img).img

/-- The ToUint8Clamp conversion applied by every assignment into a
Uint8ClampedArray such as target.pixels: values at or below 0 store 0,
values at or above 255 store 255, and anything strictly between is
rounded to the nearest integer, half-way cases to the even neighbour. -/
def toUint8Clamp (q : ℚ) : ℚ :=
  if q ≤ 0 then 0
  else if 255 ≤ q then 255
  else if q - ⌊q⌋ < 1 / 2 then (⌊q⌋ : ℚ)
  else if 1 / 2 < q - ⌊q⌋ then (⌊q⌋ : ℚ) + 1
  else if ⌊q⌋ % 2 = 0 then (⌊q⌋ : ℚ) else (⌊q⌋ : ℚ) + 1

/-- The write-back of one buffer pixel: each channel passes through the
Uint8ClampedArray conversion (the alpha channel is forced to 255 and not
modelled). -/
def pxWrite (p : Px) : Px := (toUint8Clamp p.1, toUint8Clamp p.2.1, toUint8Clamp p.2.2)

/-- The observable output of applyDither: the final loop stores the
channel buffers back into target.pixels with
target.pixels[px] = r[i] (and g, b alike), so each channel of each
pixel passes through toUint8Clamp. -/
def applyDitherPixels (near : Px → Px) (w h : ℕ) (img : List Px) : List Px :=
  (applyDither near w h img).map pxWrite

/-- The colors the sideImage sketch can actually store: the recolored
output set pushed through the Uint8ClampedArray write-back. -/
def palette3Written : List Px := palette3Out.map pxWrite

theorem getD_set_ne {α : Type} (l : List α) {i k : ℕ} (a d : α) (h : i ≠ k) :
    (l.set i a).getD k d = l.getD k d := by
  rw [List.getD_eq_getElem?_getD, List.getD_eq_getElem?_getD, List.getElem?_set_ne h]

theorem distribute_img_length (w h : ℕ) (x y : ℤ) (err : Px) (f : ℚ) (s : DitherState) :
    (distribute w h x y err f s).img.length = s.img.length := by
  unfold distribute
  split
  · rfl
  · simp

theorem ditherPixel_img_length (near : Px → Px) (w h x y : ℕ) (s : DitherState) :
    (ditherPixel near w h x y s).img.length = s.img.length := by
  unfold ditherPixel
  dsimp only
  rw [distribute_img_length, distribute_img_length, distribute_img_length,
    distribute_img_length]
  simp

theorem foldl_img_length {f : DitherState → ℕ → DitherState}
    (hf : ∀ s x, (f s x).img.length = s.img.length) :
    ∀ (l : List ℕ) (s : DitherState), (l.foldl f s).img.length = s.img.length
  | [], _ => rfl
  | x :: t, s => by
    rw [List.foldl_cons, foldl_img_length hf t _, hf]

theorem ditherRow_img_length (near : Px → Px) (w h y : ℕ) (s : DitherState) :
    (ditherRow near w h y s).img.length = s.img.length :=
  foldl_img_length (fun s x => ditherPixel_img_length near w h x y s) _ s

theorem ditherPass_img_length (near : Px → Px) (w h : ℕ) (s : DitherState) :
    (ditherPass near w h s).img.length = s.img.length :=
  foldl_img_length (fun s y => ditherRow_img_length near w h y s) _ s

/-- If the distribute target is out of bounds, or lies strictly beyond
position m, the buffer at m is untouched. -/
theorem distribute_getD_skip (w h : ℕ) (x y : ℤ) (err : Px) (f : ℚ) (s : DitherState)
    (m : ℕ)
    (hskip : x < 0 ∨ (w : ℤ) ≤ x ∨ y < 0 ∨ (h : ℤ) ≤ y ∨ (m : ℤ) < x + y * (w : ℤ)) :
    (distribute w h x y err f s).img.getD m (0, 0, 0) = s.img.getD m (0, 0, 0) := by
  unfold distribute
  split
  · rfl
  · rename_i hin
    push_neg at hin
    obtain ⟨hx0, hxw, hy0, hyh⟩ := hin
    dsimp only
    have hlt : (m : ℤ) < x + y * (w : ℤ) := by
      rcases hskip with h1 | h1 | h1 | h1 | h1
      · exact absurd h1 (by omega)
      · exact absurd h1 (by omega)
      · exact absurd h1 (by omega)
      · exact absurd h1 (by omega)
      · exact h1
    have hnn : (0 : ℤ) ≤ x + y * (w : ℤ) :=
      add_nonneg hx0 (mul_nonneg hy0 (by positivity))
    apply getD_set_ne
    intro heq
    rw [← heq, Int.toNat_of_nonneg hnn] at hlt
    exact absurd hlt (lt_irrefl _)

/-- After processing pixel (x, y), position x + y*w holds the quantized
pick and every earlier position is untouched. -/
theorem ditherPixel_getD_le (near : Px → Px) (w h x y : ℕ) (s : DitherState)
    (hx : x < w) (hy : y < h) (hidx : x + y * w < s.img.length)
    (m : ℕ) (hm : m ≤ x + y * w) :
    (ditherPixel near w h x y s).img.getD m (0, 0, 0)
      = if m = x + y * w
        then near (s.img.getD (x + y * w) (0, 0, 0))
        else s.img.getD m (0, 0, 0) := by
  have hmz : (m : ℤ) ≤ (x : ℤ) + (y : ℤ) * (w : ℤ) := by exact_mod_cast hm
  have hxz : (x : ℤ) < (w : ℤ) := by exact_mod_cast hx
  have hx0 : (0 : ℤ) ≤ (x : ℤ) := by positivity
  unfold ditherPixel
  dsimp only
  rw [distribute_getD_skip _ _ _ _ _ _ _ _ (by
    right; right; right; right
    have e : ((x : ℤ) + 1) + ((y : ℤ) + 1) * (w : ℤ)
        = ((x : ℤ) + (y : ℤ) * (w : ℤ)) + (w : ℤ) + 1 := by ring
    rw [e]
    linarith)]
  rw [distribute_getD_skip _ _ _ _ _ _ _ _ (by
    right; right; right; right
    have e : (x : ℤ) + ((y : ℤ) + 1) * (w : ℤ)
        = ((x : ℤ) + (y : ℤ) * (w : ℤ)) + (w : ℤ) := by ring
    rw [e]
    linarith)]
  rw [distribute_getD_skip _ _ _ _ _ _ _ _ (by
    rcases Nat.eq_zero_or_pos x with rfl | hxpos
    · left
      norm_num
    · right; right; right; right
      have hxz1 : (1 : ℤ) ≤ (x : ℤ) := by exact_mod_cast hxpos
      have hw2 : (2 : ℤ) ≤ (w : ℤ) := by linarith
      have e : ((x : ℤ) - 1) + ((y : ℤ) + 1) * (w : ℤ)
          = ((x : ℤ) + (y : ℤ) * (w : ℤ)) + ((w : ℤ) - 1) := by ring
      rw [e]
      linarith)]
  rw [distribute_getD_skip _ _ _ _ _ _ _ _ (by
    right; right; right; right
    linarith)]
  by_cases he : m = x + y * w
  · rw [if_pos he, he]
    rw [List.getD_eq_getElem _ _ (by simpa using hidx), List.getElem_set_self]
  · rw [if_neg he]
    exact getD_set_ne _ _ _ (fun hh => he hh.symm)

/-- The membership invariant: every buffer position below the bound
already holds a value in S. -/
def ImgInv (S : Px → Prop) (bound : ℕ) (s : DitherState) : Prop :=
  ∀ k, k < bound → S (s.img.getD k (0, 0, 0))

theorem ditherPixel_inv {S : Px → Prop} (near : Px → Px) (hnear : ∀ c, S (near c))
    (w h x y : ℕ) (s : DitherState) (hx : x < w) (hy : y < h)
    (hlen : s.img.length = w * h) (hinv : ImgInv S (x + y * w) s) :
    ImgInv S (x + y * w + 1) (ditherPixel near w h x y s) := by
  intro k hk
  have hidx : x + y * w < s.img.length := by
    rw [hlen]
    calc x + y * w < w + y * w := by omega
    _ = (y + 1) * w := by ring
    _ ≤ h * w := Nat.mul_le_mul_right w (by omega)
    _ = w * h := Nat.mul_comm h w
  rw [ditherPixel_getD_le near w h x y s hx hy hidx k (by omega)]
  split
  · exact hnear _
  · rename_i hne
    exact hinv k (by omega)

theorem ditherRow_inv {S : Px → Prop} (near : Px → Px) (hnear : ∀ c, S (near c))
    (w h y : ℕ) (hy : y < h) :
    ∀ (n : ℕ), n ≤ w → ∀ (s : DitherState), s.img.length = w * h →
      ImgInv S (y * w) s →
      ImgInv S (y * w + n)
        ((List.range n).foldl (fun acc x => ditherPixel near w h x y acc) s)
  | 0, _, s, _, hinv => by simpa using hinv
  | n + 1, hn, s, hlen, hinv => by
    rw [List.range_succ, List.foldl_append, List.foldl_cons, List.foldl_nil]
    have hprev := ditherRow_inv near hnear w h y hy n (by omega) s hlen hinv
    have hplen : ((List.range n).foldl (fun acc x => ditherPixel near w h x y acc) s).img.length
        = w * h := by
      rw [foldl_img_length (fun s x => ditherPixel_img_length near w h x y s)]
      exact hlen
    have := ditherPixel_inv near hnear w h n y _ (by omega) hy hplen (by
      intro k hk
      exact hprev k (by omega))
    intro k hk
    exact this k (by omega)

theorem ditherPass_inv {S : Px → Prop} (near : Px → Px) (hnear : ∀ c, S (near c))
    (w h : ℕ) :
    ∀ (n : ℕ), n ≤ h → ∀ (s : DitherState), s.img.length = w * h →
      ImgInv S 0 s →
      ImgInv S (n * w)
        ((List.range n).foldl (fun acc y => ditherRow near w h y acc) s)
  | 0, _, s, _, _ => by
    intro k hk
    omega
  | n + 1, hn, s, hlen, hinv => by
    rw [List.range_succ, List.foldl_append, List.foldl_cons, List.foldl_nil]
    have hprev := ditherPass_inv near hnear w h n (by omega) s hlen hinv
    have hplen : ((List.range n).foldl (fun acc y => ditherRow near w h y acc) s).img.length
        = w * h := by
      rw [foldl_img_length (fun s y => ditherRow_img_length near w h y s)]
      exact hlen
    have hrow := ditherRow_inv near hnear w h n (by omega) w (le_refl w) _ hplen hprev
    intro k hk
    unfold ditherRow
    have he : (n + 1) * w = n * w + w := by ring
    exact hrow k (by omega)

/-- Generic palette invariant of the dither pass: if the quantizer maps
every color into S, then every pixel of the output buffer is in S. -/
theorem dither_mem {S : Px → Prop} (near : Px → Px) (hnear : ∀ c, S (near c))
    (w h : ℕ) (img : List Px) (hlen : img.length = w * h) :
    ∀ p ∈ applyDither near w h img, S p := by
  intro p hp
  unfold applyDither ditherAccounting ditherPass at hp
  have hinv := ditherPass_inv near hnear w h h (le_refl h)
    { img := img, outLoss := (0, 0, 0), clampLoss := (0, 0, 0) } hlen
    (by intro k hk; omega)
  rcases List.mem_iff_getElem.mp hp with ⟨k, hkl, hkp⟩
  have hplen : ((List.range h).foldl (fun acc y => ditherRow near w h y acc)
      { img := img, outLoss := (0, 0, 0), clampLoss := (0, 0, 0) }).img.length = w * h := by
    rw [foldl_img_length (fun s y => ditherRow_img_length near w h y s)]
    exact hlen
  have hkb : k < h * w := by
    rw [Nat.mul_comm h w, ← hplen]
    exact hkl
  have hS := hinv k hkb
  rw [List.getD_eq_getElem _ _ hkl, hkp] at hS
  exact hS

theorem nearestFold_mem (c : Px) :
    ∀ (pal : List Px) (b : ℚ) (p : Px),
      (pal.foldl (nearestStep c) (some b, p)).2 = p
        ∨ (pal.foldl (nearestStep c) (some b, p)).2 ∈ pal
  | [], _, _ => Or.inl rfl
  | q :: t, b, p => by
    rw [List.foldl_cons]
    have hstep : nearestStep c (some b, p) q
        = if channelDistSq c q < b then (some (channelDistSq c q), q) else (some b, p) := rfl
    rw [hstep]
    split
    · rcases nearestFold_mem c t (channelDistSq c q) q with h | h
      · right
        rw [h]
        exact List.mem_cons_self q t
      · right
        exact List.mem_cons_of_mem q h
    · rcases nearestFold_mem c t b p with h | h
      · exact Or.inl h
      · right
        exact List.mem_cons_of_mem q h

theorem nearestScan_mem_cons (c q : Px) (t : List Px) :
    nearestScan (q :: t) c ∈ q :: t := by
  unfold nearestScan
  rw [List.foldl_cons]
  have hstep : nearestStep c ((none : Option ℚ), (q :: t).headD (0, 0, 0)) q
      = (some (channelDistSq c q), q) := rfl
  rw [hstep]
  rcases nearestFold_mem c t (channelDistSq c q) q with h | h
  · rw [h]
    exact List.mem_cons_self q t
  · exact List.mem_cons_of_mem q h

theorem nearestPalette_mem (c : Px) : nearestPalette c ∈ sketchPalette :=
  nearestScan_mem_cons c _ _

theorem nearestPalette3_mem (c : Px) : nearestPalette3 c ∈ palette3Out := by
  unfold nearestPalette3 palette3Out
  exact List.mem_map_of_mem remap3 (nearestScan_mem_cons c _ _)

/-- Every entry of the createSketch palette is an in-range integer, so
the Uint8ClampedArray write-back stores it unchanged. -/
theorem pxWrite_sketchPalette : ∀ p ∈ sketchPalette, pxWrite p = p := by
  intro p hp
  simp only [sketchPalette, List.mem_cons, List.not_mem_nil, or_false] at hp
  rcases hp with rfl | rfl | rfl | rfl | rfl | rfl | rfl
  all_goals norm_num [pxWrite, toUint8Clamp, Prod.ext_iff]

/-- The recolored output set of the sideImage sketch, spelled out. -/
theorem palette3Out_eq :
    palette3Out = [((0 : ℚ), (0 : ℚ), (0 : ℚ)), (0, 0, 0), (82, 102, 235), (255, 50, 0),
      (208, 50, 117), (180, 288, 5), (52, 200, 3), (255, 255, 255)] := by
  norm_num [palette3Out, palette3, remap3, Prod.ext_iff]

/-- The stored color set of the sideImage sketch, spelled out: only the
out-of-range entry [180,288,5] changes under the write-back, to
[180,255,5]. -/
theorem palette3Written_eq :
    palette3Written = [((0 : ℚ), (0 : ℚ), (0 : ℚ)), (0, 0, 0), (82, 102, 235), (255, 50, 0),
      (208, 50, 117), (180, 255, 5), (52, 200, 3), (255, 255, 255)] := by
  unfold palette3Written
  rw [palette3Out_eq]
  norm_num [pxWrite, toUint8Clamp, Prod.ext_iff]

theorem applyDither_single (near : Px → Px) (c : Px) :
    applyDither near 1 1 [c] = [near c] := by
  norm_num [applyDither, ditherAccounting, ditherPass, ditherRow, ditherPixel,
    distribute, List.range_succ]

theorem applyDitherPixels_single (near : Px → Px) (c : Px) :
    applyDitherPixels near 1 1 [c] = [pxWrite (near c)] := by
  unfold applyDitherPixels
  rw [applyDither_single]
  rfl

theorem nearestPalette3_example :
    nearestPalette3 ((234 : ℚ), (67 : ℚ), (53 : ℚ)) = ((208 : ℚ), (50 : ℚ), (117 : ℚ)) := by
  unfold nearestPalette3
  have hscan : nearestScan palette3 ((234 : ℚ), (67 : ℚ), (53 : ℚ))
      = ((234 : ℚ), (67 : ℚ), (53 : ℚ)) := by
    norm_num [nearestScan, nearestStep, palette3, channelDistSq]
  rw [hscan]
  norm_num [remap3, Prod.ext_iff]

/-- The buffer color [180,255,5] is strictly nearest to the out-of-range
palette entry [180,288,5] (squared distance 1089 beats every other
entry), and the recolor leaves that pick untouched. -/
theorem nearestPalette3_overRange :
    nearestPalette3 ((180 : ℚ), (255 : ℚ), (5 : ℚ)) = ((180 : ℚ), (288 : ℚ), (5 : ℚ)) := by
  unfold nearestPalette3
  have hscan : nearestScan palette3 ((180 : ℚ), (255 : ℚ), (5 : ℚ))
      = ((180 : ℚ), (288 : ℚ), (5 : ℚ)) := by
    norm_num [nearestScan, nearestStep, palette3, channelDistSq]
  rw [hscan]
  norm_num [remap3, Prod.ext_iff]

theorem pxWrite_overRange :
    pxWrite ((180 : ℚ), (288 : ℚ), (5 : ℚ)) = ((180 : ℚ), (255 : ℚ), (5 : ℚ)) := by
  norm_num [pxWrite, toUint8Clamp, Prod.ext_iff]

/-- C1 (amended): in createSketch.ts (and the first DirectionTwo sketch,
which shares the same quantizer and an in-range palette) every stored
output pixel is exactly one of the palette entries.  In the sideImage
DirectionTwo sketch the quantizer recolors three picks after the scan
and the Uint8ClampedArray write-back clamps the out-of-range entry
[180,288,5] to [180,255,5], so every stored pixel there lies in the
fixed written color set palette3Written - but not always in the declared
palette, nor even in the recolored set palette3Out (see the
counterexample). -/
theorem C1_dither_palette_amended :
    (∀ (w h : ℕ) (img : List Px), img.length = w * h →
        ∀ p ∈ applyDitherPixels nearestPalette w h img, p ∈ sketchPalette) ∧
    (∀ (w h : ℕ) (img : List Px), img.length = w * h →
        ∀ p ∈ applyDitherPixels nearestPalette3 w h img, p ∈ palette3Written) := by
  constructor
  · intro w h img hlen p hp
    simp only [applyDitherPixels] at hp
    rcases List.mem_map.mp hp with ⟨q, hq, rfl⟩
    have hqmem := dither_mem nearestPalette nearestPalette_mem w h img hlen q hq
    rw [pxWrite_sketchPalette q hqmem]
    exact hqmem
  · intro w h img hlen p hp
    simp only [applyDitherPixels] at hp
    rcases List.mem_map.mp hp with ⟨q, hq, rfl⟩
    unfold palette3Written
    exact List.mem_map_of_mem pxWrite
      (dither_mem nearestPalette3 nearestPalette3_mem w h img hlen q hq)

/-- C1 (counterexample): in the sideImage DirectionTwo sketch, dithering
the 1x1 raster holding the palette color [234,67,53] stores the
recolored pixel [208,50,117], which is not an entry of the declared
palette; and dithering the 1x1 raster holding [180,255,5] picks the
out-of-range entry [180,288,5], whose green channel the
Uint8ClampedArray write-back clamps to 255, so the stored pixel
[180,255,5] is in neither the declared palette nor the recolored set
palette3Out. -/
theorem C1_counterexample :
    (applyDitherPixels nearestPalette3 1 1 [((234 : ℚ), (67 : ℚ), (53 : ℚ))]
        = [((208 : ℚ), (50 : ℚ), (117 : ℚ))]
      ∧ ((208 : ℚ), (50 : ℚ), (117 : ℚ)) ∉ palette3) ∧
    (applyDitherPixels nearestPalette3 1 1 [((180 : ℚ), (255 : ℚ), (5 : ℚ))]
        = [((180 : ℚ), (255 : ℚ), (5 : ℚ))]
      ∧ ((180 : ℚ), (255 : ℚ), (5 : ℚ)) ∉ palette3
      ∧ ((180 : ℚ), (255 : ℚ), (5 : ℚ)) ∉ palette3Out) := by
  refine ⟨⟨?_, ?_⟩, ?_, ?_, ?_⟩
  · rw [applyDitherPixels_single, nearestPalette3_example]
    norm_num [pxWrite, toUint8Clamp, Prod.ext_iff]
  · intro hmem
    norm_num [palette3, List.mem_cons, Prod.ext_iff] at hmem
  · rw [applyDitherPixels_single, nearestPalette3_overRange, pxWrite_overRange]
  · intro hmem
    norm_num [palette3, List.mem_cons, Prod.ext_iff] at hmem
  · intro hmem
    rw [palette3Out_eq] at hmem
    norm_num [List.mem_cons, Prod.ext_iff] at hmem

/-- Witness for C1 (amended) on 1x1 rasters: black is stored as the
palette entry black under the createSketch quantizer, and the clamped
stored pixel [180,255,5] of the sideImage quantizer belongs to the
written color set. -/
theorem C1_dither_palette_amended_witness :
    (([((0 : ℚ), (0 : ℚ), (0 : ℚ))] : List Px).length = 1 * 1
      ∧ ((0 : ℚ), (0 : ℚ), (0 : ℚ)) ∈ sketchPalette)
    ∧ (([((180 : ℚ), (255 : ℚ), (5 : ℚ))] : List Px).length = 1 * 1
      ∧ ((180 : ℚ), (255 : ℚ), (5 : ℚ)) ∈ palette3Written) := by
  have hq0 : nearestPalette ((0 : ℚ), (0 : ℚ), (0 : ℚ)) = ((0 : ℚ), (0 : ℚ), (0 : ℚ)) := by
    norm_num [nearestPalette, nearestScan, nearestStep, sketchPalette, channelDistSq]
  constructor
  · refine ⟨by norm_num, ?_⟩
    refine C1_dither_palette_amended.1 1 1 [((0 : ℚ), (0 : ℚ), (0 : ℚ))] (by norm_num)
      ((0 : ℚ), (0 : ℚ), (0 : ℚ)) ?_
    rw [applyDitherPixels_single, hq0]
    norm_num [pxWrite, toUint8Clamp, Prod.ext_iff]
  · refine ⟨by norm_num, ?_⟩
    refine C1_dither_palette_amended.2 1 1 [((180 : ℚ), (255 : ℚ), (5 : ℚ))] (by norm_num)
      ((180 : ℚ), (255 : ℚ), (5 : ℚ)) ?_
    rw [applyDitherPixels_single, nearestPalette3_overRange, pxWrite_overRange]
    exact List.mem_singleton.mpr rfl

/-! #### Conservation accounting for the dither pass (C2)

The total channel energy of a dither state is the componentwise sum of
the buffer plus the two ghost accumulators.  Each distribute call moves
exactly factor * err of energy: into the buffer when the target is in
bounds and unclamped, into clampLoss for the clamped part, or into
outLoss when the target is out of bounds.  A whole pixel step is then
energy-neutral because the four Floyd-Steinberg weights sum to one. -/

/-- Total accounted channel energy of a dither state. -/
def energy (s : DitherState) : Px := s.img.sum + s.outLoss + s.clampLoss

theorem sum_set_px : ∀ (l : List Px) (i : ℕ) (a : Px), i < l.length →
    (l.set i a).sum = l.sum - l.getD i (0, 0, 0) + a
  | [], i, a, h => absurd h (by simp)
  | b :: t, 0, a, _ => by
    simp only [List.set_cons_zero, List.sum_cons, List.getD_cons_zero]
    abel
  | b :: t, i + 1, a, h => by
    simp only [List.set_cons_succ, List.sum_cons, List.getD_cons_succ]
    rw [sum_set_px t i a (by simpa using h)]
    abel

theorem distribute_energy (w h : ℕ) (x y : ℤ) (err : Px) (f : ℚ) (s : DitherState)
    (hlen : s.img.length = w * h) :
    energy (distribute w h x y err f s) = energy s + pxScale f err := by
  unfold distribute energy
  split
  · dsimp only
    abel
  · rename_i hin
    push_neg at hin
    obtain ⟨hx0, hxw, hy0, hyh⟩ := hin
    dsimp only
    have h2 : (0 : ℤ) ≤ x + y * (w : ℤ) :=
      add_nonneg hx0 (mul_nonneg hy0 (by positivity))
    have hidx : (x + y * (w : ℤ)).toNat < s.img.length := by
      rw [hlen]
      have hyle : y ≤ (h : ℤ) - 1 := by linarith
      have h1 : x + y * (w : ℤ) < (w : ℤ) * (h : ℤ) := by
        have hmul : y * (w : ℤ) ≤ ((h : ℤ) - 1) * (w : ℤ) :=
          mul_le_mul_of_nonneg_right hyle (by positivity)
        nlinarith
      have h3 : ((x + y * (w : ℤ)).toNat : ℤ) < (w : ℤ) * (h : ℤ) := by
        rw [Int.toNat_of_nonneg h2]
        exact h1
      exact_mod_cast h3
    rw [sum_set_px _ _ _ hidx]
    abel

theorem pxScale_err_total (err : Px) :
    pxScale (7 / 16) err + (pxScale (3 / 16) err
      + (pxScale (5 / 16) err + pxScale (1 / 16) err)) = err := by
  apply Prod.ext
  · simp only [pxScale, Prod.mk_add_mk]
    ring
  · apply Prod.ext
    · simp only [pxScale, Prod.mk_add_mk]
      ring
    · simp only [pxScale, Prod.mk_add_mk]
      ring

theorem ditherPixel_energy (near : Px → Px) (w h x y : ℕ) (s : DitherState)
    (hx : x < w) (hy : y < h) (hlen : s.img.length = w * h) :
    energy (ditherPixel near w h x y s) = energy s := by
  have hidx : x + y * w < s.img.length := by
    rw [hlen]
    calc x + y * w < w + y * w := by omega
    _ = (y + 1) * w := by ring
    _ ≤ h * w := Nat.mul_le_mul_right w (by omega)
    _ = w * h := Nat.mul_comm h w
  unfold ditherPixel
  dsimp only
  set old := s.img.getD (x + y * w) (0, 0, 0) with hold
  set pick := near old with hpick
  set s1 : DitherState := { s with img := s.img.set (x + y * w) pick } with hs1
  have hl1 : s1.img.length = w * h := by
    rw [hs1]
    simpa using hlen
  have hl2 : (distribute w h ((x : ℤ) + 1) (y : ℤ) (old - pick) (7 / 16) s1).img.length
      = w * h := by
    rw [distribute_img_length]
    exact hl1
  have hl3 : (distribute w h ((x : ℤ) - 1) ((y : ℤ) + 1) (old - pick) (3 / 16)
      (distribute w h ((x : ℤ) + 1) (y : ℤ) (old - pick) (7 / 16) s1)).img.length
      = w * h := by
    rw [distribute_img_length]
    exact hl2
  have hl4 : (distribute w h (x : ℤ) ((y : ℤ) + 1) (old - pick) (5 / 16)
      (distribute w h ((x : ℤ) - 1) ((y : ℤ) + 1) (old - pick) (3 / 16)
        (distribute w h ((x : ℤ) + 1) (y : ℤ) (old - pick) (7 / 16) s1))).img.length
      = w * h := by
    rw [distribute_img_length]
    exact hl3
  rw [distribute_energy _ _ _ _ _ _ _ hl4, distribute_energy _ _ _ _ _ _ _ hl3,
      distribute_energy _ _ _ _ _ _ _ hl2, distribute_energy _ _ _ _ _ _ _ hl1]
  have he1 : energy s1 = energy s - (old - pick) := by
    unfold energy
    rw [hs1]
    dsimp only
    rw [sum_set_px _ _ _ hidx]
    rw [← hold]
    abel
  rw [he1]
  have hre : ∀ X A B C D : Px, X + A + B + C + D = X + (A + (B + (C + D))) := by
    intro X A B C D
    abel
  rw [hre, pxScale_err_total]
  abel

theorem ditherRow_energy (near : Px → Px) (w h y : ℕ) (hy : y < h) :
    ∀ (n : ℕ), n ≤ w → ∀ (s : DitherState), s.img.length = w * h →
      energy ((List.range n).foldl (fun acc x => ditherPixel near w h x y acc) s)
        = energy s
  | 0, _, s, _ => by simp
  | n + 1, hn, s, hlen => by
    rw [List.range_succ, List.foldl_append, List.foldl_cons, List.foldl_nil]
    have hplen : ((List.range n).foldl (fun acc x => ditherPixel near w h x y acc) s).img.length
        = w * h := by
      rw [foldl_img_length (fun s x => ditherPixel_img_length near w h x y s)]
      exact hlen
    rw [ditherPixel_energy near w h n y _ (by omega) hy hplen]
    exact ditherRow_energy near w h y hy n (by omega) s hlen

theorem ditherRow_energy_full (near : Px → Px) (w h y : ℕ) (hy : y < h)
    (s : DitherState) (hlen : s.img.length = w * h) :
    energy (ditherRow near w h y s) = energy s := by
  unfold ditherRow
  exact ditherRow_energy near w h y hy w (le_refl w) s hlen

theorem ditherPass_energy (near : Px → Px) (w h : ℕ) :
    ∀ (n : ℕ), n ≤ h → ∀ (s : DitherState), s.img.length = w * h →
      energy ((List.range n).foldl (fun acc y => ditherRow near w h y acc) s)
        = energy s
  | 0, _, s, _ => by simp
  | n + 1, hn, s, hlen => by
    rw [List.range_succ, List.foldl_append, List.foldl_cons, List.foldl_nil]
    have hplen : ((List.range n).foldl (fun acc y => ditherRow near w h y acc) s).img.length
        = w * h := by
      rw [foldl_img_length (fun s y => ditherRow_img_length near w h y s)]
      exact hlen
    rw [ditherRow_energy_full near w h n (by omega) _ hplen]
    exact ditherPass_energy near w h n (by omega) s hlen

/-- C2 (amended): the dither pass conserves channel energy exactly once
the two loss channels are accounted: the sum of the quantized buffer
plus the error dropped at out-of-bounds targets plus the error destroyed
by the clamp255 saturation inside distribute equals the sum of the
original buffer, componentwise and exactly over the rationals.  The
claim as stated omits the clamp term and is refuted by the
counterexample. -/
theorem C2_conservation_amended :
    ∀ (w h : ℕ) (img : List Px), img.length = w * h →
      (applyDither nearestPalette w h img).sum
          + (ditherAccounting nearestPalette w h img).outLoss
          + (ditherAccounting nearestPalette w h img).clampLoss
        = img.sum := by
  intro w h img hlen
  have := ditherPass_energy nearestPalette w h h (le_refl h)
    { img := img, outLoss := (0, 0, 0), clampLoss := (0, 0, 0) } hlen
  unfold energy at this
  unfold applyDither ditherAccounting
  simpa using this

/-- Witness for C2 (amended) on the 1x1 raster holding (1,2,3). -/
theorem C2_conservation_amended_witness :
    (([((1 : ℚ), (2 : ℚ), (3 : ℚ))] : List Px).length = 1 * 1)
      ∧ (applyDither nearestPalette 1 1 [((1 : ℚ), (2 : ℚ), (3 : ℚ))]).sum
          + (ditherAccounting nearestPalette 1 1 [((1 : ℚ), (2 : ℚ), (3 : ℚ))]).outLoss
          + (ditherAccounting nearestPalette 1 1 [((1 : ℚ), (2 : ℚ), (3 : ℚ))]).clampLoss
        = ([((1 : ℚ), (2 : ℚ), (3 : ℚ))] : List Px).sum :=
  ⟨by norm_num,
   C2_conservation_amended 1 1 [((1 : ℚ), (2 : ℚ), (3 : ℚ))] (by norm_num)⟩

/-- C2 (counterexample): on the 2x1 raster of pure white under the
createSketch palette, the first pixel quantizes to off-white
[248,249,250] and its rightward error 7/16 * (7,6,5) saturates the
already-white neighbour, so clamp255 inside distribute silently destroys
(49/16, 21/8, 35/16) of error energy at an in-bounds target.  The sum of
the quantized row plus all error diffused to out-of-bounds targets falls
short of the original row sum by exactly that clamped amount, refuting
the claim that energy only vanishes where diffusion targets leave the
canvas. -/
theorem C2_counterexample :
    (ditherAccounting nearestPalette 2 1
          [((255 : ℚ), (255 : ℚ), (255 : ℚ)), ((255 : ℚ), (255 : ℚ), (255 : ℚ))]).clampLoss
        = ((49 / 16 : ℚ), (21 / 8 : ℚ), (35 / 16 : ℚ))
      ∧ (ditherAccounting nearestPalette 2 1
            [((255 : ℚ), (255 : ℚ), (255 : ℚ)), ((255 : ℚ), (255 : ℚ), (255 : ℚ))]).img.sum
          + (ditherAccounting nearestPalette 2 1
              [((255 : ℚ), (255 : ℚ), (255 : ℚ)), ((255 : ℚ), (255 : ℚ), (255 : ℚ))]).outLoss
        ≠ ([((255 : ℚ), (255 : ℚ), (255 : ℚ)), ((255 : ℚ), (255 : ℚ), (255 : ℚ))] : List Px).sum := by
  have hq : nearestPalette ((255 : ℚ), (255 : ℚ), (255 : ℚ))
      = ((248 : ℚ), (249 : ℚ), (250 : ℚ)) := by
    norm_num [nearestPalette, nearestScan, nearestStep, sketchPalette, channelDistSq]
  have hp0 : ditherPixel nearestPalette 2 1 0 0
      { img := [((255 : ℚ), (255 : ℚ), (255 : ℚ)), ((255 : ℚ), (255 : ℚ), (255 : ℚ))],
        outLoss := ((0 : ℚ), (0 : ℚ), (0 : ℚ)), clampLoss := ((0 : ℚ), (0 : ℚ), (0 : ℚ)) }
      = { img := [((248 : ℚ), (249 : ℚ), (250 : ℚ)), ((255 : ℚ), (255 : ℚ), (255 : ℚ))],
          outLoss := ((63 / 16 : ℚ), (27 / 8 : ℚ), (45 / 16 : ℚ)),
          clampLoss := ((49 / 16 : ℚ), (21 / 8 : ℚ), (35 / 16 : ℚ)) } := by
    norm_num [ditherPixel, distribute, pxScale, clampPx, clamp255, hq,
      Prod.ext_iff, DitherState.mk.injEq]
  have hp1 : ditherPixel nearestPalette 2 1 1 0
      { img := [((248 : ℚ), (249 : ℚ), (250 : ℚ)), ((255 : ℚ), (255 : ℚ), (255 : ℚ))],
        outLoss := ((63 / 16 : ℚ), (27 / 8 : ℚ), (45 / 16 : ℚ)),
        clampLoss := ((49 / 16 : ℚ), (21 / 8 : ℚ), (35 / 16 : ℚ)) }
      = { img := [((248 : ℚ), (249 : ℚ), (250 : ℚ)), ((248 : ℚ), (249 : ℚ), (250 : ℚ))],
          outLoss := ((175 / 16 : ℚ), (75 / 8 : ℚ), (125 / 16 : ℚ)),
          clampLoss := ((49 / 16 : ℚ), (21 / 8 : ℚ), (35 / 16 : ℚ)) } := by
    norm_num [ditherPixel, distribute, pxScale, clampPx, clamp255, hq,
      Prod.ext_iff, DitherState.mk.injEq]
  have hstate : ditherAccounting nearestPalette 2 1
      [((255 : ℚ), (255 : ℚ), (255 : ℚ)), ((255 : ℚ), (255 : ℚ), (255 : ℚ))]
      = { img := [((248 : ℚ), (249 : ℚ), (250 : ℚ)), ((248 : ℚ), (249 : ℚ), (250 : ℚ))],
          outLoss := ((175 / 16 : ℚ), (75 / 8 : ℚ), (125 / 16 : ℚ)),
          clampLoss := ((49 / 16 : ℚ), (21 / 8 : ℚ), (35 / 16 : ℚ)) } := by
    unfold ditherAccounting ditherPass ditherRow
    rw [show List.range 1 = [0] from rfl, show List.range 2 = [0, 1] from rfl]
    simp only [List.foldl_cons, List.foldl_nil]
    rw [hp0, hp1]
  rw [hstate]
  constructor
  · rfl
  · intro hcontra
    norm_num [Prod.ext_iff, Prod.mk_add_mk] at hcontra

/-! ### Draw budgets (single sketch and multi-layer DirectionTwo draw) -/

/-- createSketch.ts draw(): toDraw = Math.min(drawCount, MAX_PIXELS). -/
def toDraw (drawCount maxPixels : ℕ) : ℕ := min drawCount maxPixels

/-- MIN_COVERAGE resolution Math.max(0, Math.min(1, vars.minCoverage ?? dflt))
(default 0.75 in the two-layer sketch, 0.33 in the three-layer one). -/
def minCoverageResolved (v : Option ℚ) (dflt : ℚ) : ℚ := max 0 (min 1 (v.getD dflt))

/-- The per-layer budget split in the draw() of the two-layer
DirectionTwo sketch: the total budget is the requested MAX_PIXELS raised
to the coverage floor and capped by the drawable count, the bottom layer
gets the floor of its proportional share, the top layer the remainder,
and leftovers are redistributed bottom-first. -/
def layerBudgets2 (cb ct maxPixels : ℕ) (cov : ℚ) : ℕ × ℕ :=
  let totalDrawable := cb + ct
  let minBudget := (⌊(totalDrawable : ℚ) * cov⌋).toNat
  let totalBudget := min totalDrawable (max maxPixels minBudget)
  if 0 < totalDrawable ∧ 0 < totalBudget then
    let bottomShare : ℚ := (cb : ℚ) / (totalDrawable : ℚ)
    let bottomBudget := min cb (⌊(totalBudget : ℚ) * bottomShare⌋).toNat
    let topBudget := min ct (totalBudget - bottomBudget)
    let remaining := totalBudget - (bottomBudget + topBudget)
    let addBottom := min remaining (cb - bottomBudget)
    (bottomBudget + addBottom, topBudget + min (remaining - addBottom) (ct - topBudget))
  else (0, 0)

/-- The per-layer budget split in the draw() of the three-layer
(sideImage) DirectionTwo sketch. -/
def layerBudgets3 (cb ct cs maxPixels : ℕ) (cov : ℚ) : ℕ × ℕ × ℕ :=
  let totalDrawable := cb + ct + cs
  let minBudget := (⌊(totalDrawable : ℚ) * cov⌋).toNat
  let totalBudget := min totalDrawable (max maxPixels minBudget)
  if 0 < totalDrawable ∧ 0 < totalBudget then
    let bottomBudget := min cb (⌊(totalBudget : ℚ) * ((cb : ℚ) / (totalDrawable : ℚ))⌋).toNat
    let topBudget := min ct (⌊(totalBudget : ℚ) * ((ct : ℚ) / (totalDrawable : ℚ))⌋).toNat
    let sideBudget := min cs (⌊(totalBudget : ℚ) * ((cs : ℚ) / (totalDrawable : ℚ))⌋).toNat
    let remaining := totalBudget - (bottomBudget + topBudget + sideBudget)
    let addBottom := min remaining (max 0 (cb - bottomBudget))
    let remain2 := remaining - addBottom
    let addTop := min remain2 (max 0 (ct - topBudget))
    let remain3 := remain2 - addTop
    (bottomBudget + addBottom, topBudget + addTop,
      sideBudget + min remain3 (max 0 (cs - sideBudget)))
  else (0, 0, 0)

theorem floor_share_le (tb c td : ℕ) (hc : c ≤ td) :
    (⌊(tb : ℚ) * ((c : ℚ) / (td : ℚ))⌋).toNat ≤ tb := by
  rcases Nat.eq_zero_or_pos td with rfl | htd
  · have hc0 : c = 0 := by omega
    subst hc0
    simp
  · have hr : (c : ℚ) / (td : ℚ) ≤ 1 := by
      rw [div_le_one (by exact_mod_cast htd)]
      exact_mod_cast hc
    have hle : (tb : ℚ) * ((c : ℚ) / (td : ℚ)) ≤ (tb : ℚ) :=
      mul_le_of_le_one_right (by positivity) hr
    have h2 : ⌊(tb : ℚ) * ((c : ℚ) / (td : ℚ))⌋ ≤ (tb : ℤ) := by
      calc ⌊(tb : ℚ) * ((c : ℚ) / (td : ℚ))⌋ ≤ ⌊(tb : ℚ)⌋ := Int.floor_le_floor hle
      _ = (tb : ℤ) := Int.floor_natCast tb
    exact Int.toNat_le.mpr h2

theorem split2_core (cb ct TB q : ℕ) (hTB : TB ≤ cb + ct) (hq : q ≤ TB) :
    (min cb q + min (TB - (min cb q + min ct (TB - min cb q))) (cb - min cb q))
        + (min ct (TB - min cb q)
          + min ((TB - (min cb q + min ct (TB - min cb q)))
              - min (TB - (min cb q + min ct (TB - min cb q))) (cb - min cb q))
            (ct - min ct (TB - min cb q)))
      = TB
    ∧ min cb q + min (TB - (min cb q + min ct (TB - min cb q))) (cb - min cb q) ≤ cb
    ∧ min ct (TB - min cb q)
        + min ((TB - (min cb q + min ct (TB - min cb q)))
            - min (TB - (min cb q + min ct (TB - min cb q))) (cb - min cb q))
          (ct - min ct (TB - min cb q)) ≤ ct := by
  omega

theorem layerBudgets2_spec (cb ct maxPixels : ℕ) (cov : ℚ) :
    (layerBudgets2 cb ct maxPixels cov).1 + (layerBudgets2 cb ct maxPixels cov).2
        = min (cb + ct) (max maxPixels (⌊((cb + ct : ℕ) : ℚ) * cov⌋).toNat)
      ∧ (layerBudgets2 cb ct maxPixels cov).1 ≤ cb
      ∧ (layerBudgets2 cb ct maxPixels cov).2 ≤ ct := by
  unfold layerBudgets2
  dsimp only
  split
  case isTrue h =>
    dsimp only
    exact split2_core cb ct _ _ (min_le_left _ _)
      (floor_share_le _ cb (cb + ct) (by omega))
  case isFalse h =>
    push_neg at h
    dsimp only
    refine ⟨?_, by omega, by omega⟩
    rcases Nat.eq_zero_or_pos (cb + ct) with hz | hpos
    · omega
    · have h0 := h hpos
      omega

theorem split3_core (cb ct cs TB q1 q2 q3 : ℕ) (hTB : TB ≤ cb + ct + cs)
    (h1 : q1 + q2 + q3 ≤ TB) :
    let b := min cb q1
    let t := min ct q2
    let sd := min cs q3
    let rem := TB - (b + t + sd)
    let aB := min rem (max 0 (cb - b))
    let rem2 := rem - aB
    let aT := min rem2 (max 0 (ct - t))
    let rem3 := rem2 - aT
    (b + aB) + (t + aT) + (sd + min rem3 (max 0 (cs - sd))) = TB
      ∧ b + aB ≤ cb ∧ t + aT ≤ ct ∧ sd + min rem3 (max 0 (cs - sd)) ≤ cs := by
  dsimp only
  omega

theorem floor_shares3_le (TB cb ct cs : ℕ) :
    (⌊(TB : ℚ) * ((cb : ℚ) / ((cb + ct + cs : ℕ) : ℚ))⌋).toNat
      + (⌊(TB : ℚ) * ((ct : ℚ) / ((cb + ct + cs : ℕ) : ℚ))⌋).toNat
      + (⌊(TB : ℚ) * ((cs : ℚ) / ((cb + ct + cs : ℕ) : ℚ))⌋).toNat ≤ TB := by
  rcases Nat.eq_zero_or_pos (cb + ct + cs) with hz | hpos
  · have hb : cb = 0 := by omega
    have ht : ct = 0 := by omega
    have hs : cs = 0 := by omega
    subst hb
    subst ht
    subst hs
    simp
  · have htd : (0 : ℚ) < ((cb + ct + cs : ℕ) : ℚ) := by exact_mod_cast hpos
    set x1 := (TB : ℚ) * ((cb : ℚ) / ((cb + ct + cs : ℕ) : ℚ)) with hx1
    set x2 := (TB : ℚ) * ((ct : ℚ) / ((cb + ct + cs : ℕ) : ℚ)) with hx2
    set x3 := (TB : ℚ) * ((cs : ℚ) / ((cb + ct + cs : ℕ) : ℚ)) with hx3
    have hsum : x1 + x2 + x3 = (TB : ℚ) := by
      have hne2 : ((cb : ℚ) + (ct : ℚ) + (cs : ℚ)) ≠ 0 := by
        push_cast at htd
        exact ne_of_gt htd
      rw [hx1, hx2, hx3]
      push_cast
      field_simp
      ring
    have hf : ((⌊x1⌋ + ⌊x2⌋ + ⌊x3⌋ : ℤ) : ℚ) ≤ (TB : ℚ) := by
      push_cast
      have f1 := Int.floor_le x1
      have f2 := Int.floor_le x2
      have f3 := Int.floor_le x3
      linarith
    have hfi : ⌊x1⌋ + ⌊x2⌋ + ⌊x3⌋ ≤ (TB : ℤ) := by exact_mod_cast hf
    have hn1 : 0 ≤ ⌊x1⌋ := Int.floor_nonneg.mpr (by rw [hx1]; positivity)
    have hn2 : 0 ≤ ⌊x2⌋ := Int.floor_nonneg.mpr (by rw [hx2]; positivity)
    have hn3 : 0 ≤ ⌊x3⌋ := Int.floor_nonneg.mpr (by rw [hx3]; positivity)
    omega

theorem layerBudgets3_spec (cb ct cs maxPixels : ℕ) (cov : ℚ) :
    (layerBudgets3 cb ct cs maxPixels cov).1 + (layerBudgets3 cb ct cs maxPixels cov).2.1
          + (layerBudgets3 cb ct cs maxPixels cov).2.2
        = min (cb + ct + cs) (max maxPixels (⌊((cb + ct + cs : ℕ) : ℚ) * cov⌋).toNat)
      ∧ (layerBudgets3 cb ct cs maxPixels cov).1 ≤ cb
      ∧ (layerBudgets3 cb ct cs maxPixels cov).2.1 ≤ ct
      ∧ (layerBudgets3 cb ct cs maxPixels cov).2.2 ≤ cs := by
  unfold layerBudgets3
  dsimp only
  split
  case isTrue h =>
    dsimp only
    exact split3_core cb ct cs _ _ _ _ (min_le_left _ _) (floor_shares3_le _ cb ct cs)
  case isFalse h =>
    push_neg at h
    dsimp only
    refine ⟨?_, by omega, by omega, by omega⟩
    rcases Nat.eq_zero_or_pos (cb + ct + cs) with hz | hpos
    · omega
    · have h0 := h hpos
      omega

/-- C6 (amended): in the single-layer sketch exactly min(budget, L)
cells are handed to the renderer per draw call.  In the multi-layer
DirectionTwo sketches the per-layer budgets always sum to exactly
min(totalDrawable, max(maxPixels, floor(coverage * totalDrawable))):
they respect the minimum-coverage floor and never exceed any layer's
drawable count, but when that floor exceeds the requested maxPixels the
realized total exceeds the requested budget (the floor takes precedence;
see the counterexample). -/
theorem C6_budget_amended :
    (∀ drawCount maxPixels : ℕ, toDraw drawCount maxPixels = min maxPixels drawCount) ∧
    (∀ (cb ct maxPixels : ℕ) (cov : ℚ),
        (layerBudgets2 cb ct maxPixels cov).1 + (layerBudgets2 cb ct maxPixels cov).2
            = min (cb + ct) (max maxPixels (⌊((cb + ct : ℕ) : ℚ) * cov⌋).toNat)
          ∧ (layerBudgets2 cb ct maxPixels cov).1 ≤ cb
          ∧ (layerBudgets2 cb ct maxPixels cov).2 ≤ ct
          ∧ min (cb + ct) (⌊((cb + ct : ℕ) : ℚ) * cov⌋).toNat
              ≤ (layerBudgets2 cb ct maxPixels cov).1 + (layerBudgets2 cb ct maxPixels cov).2) ∧
    (∀ (cb ct cs maxPixels : ℕ) (cov : ℚ),
        (layerBudgets3 cb ct cs maxPixels cov).1 + (layerBudgets3 cb ct cs maxPixels cov).2.1
              + (layerBudgets3 cb ct cs maxPixels cov).2.2
            = min (cb + ct + cs) (max maxPixels (⌊((cb + ct + cs : ℕ) : ℚ) * cov⌋).toNat)
          ∧ (layerBudgets3 cb ct cs maxPixels cov).1 ≤ cb
          ∧ (layerBudgets3 cb ct cs maxPixels cov).2.1 ≤ ct
          ∧ (layerBudgets3 cb ct cs maxPixels cov).2.2 ≤ cs) := by
  refine ⟨fun L B => Nat.min_comm L B, fun cb ct B cov => ?_, fun cb ct cs B cov => ?_⟩
  · obtain ⟨h1, h2, h3⟩ := layerBudgets2_spec cb ct B cov
    exact ⟨h1, h2, h3, by omega⟩
  · obtain ⟨h1, h2, h3, h4⟩ := layerBudgets3_spec cb ct cs B cov
    exact ⟨h1, h2, h3, h4⟩

/-- C6 (counterexample): with 50000 drawable cells in each of the two
layers, a requested budget of 50000 and the default minimum coverage
0.75, the coverage floor is 75000 and the per-layer budgets (37500 each)
sum to 75000, exceeding the requested total budget of 50000: the sum of
per-layer budgets is not bounded by the requested budget. -/
theorem C6_counterexample :
    (layerBudgets2 50000 50000 50000 (minCoverageResolved none (3 / 4))).1
          + (layerBudgets2 50000 50000 50000 (minCoverageResolved none (3 / 4))).2
        = 75000
      ∧ ¬((layerBudgets2 50000 50000 50000 (minCoverageResolved none (3 / 4))).1
            + (layerBudgets2 50000 50000 50000 (minCoverageResolved none (3 / 4))).2
          ≤ 50000) := by
  have hcov : minCoverageResolved none (3 / 4) = (3 / 4 : ℚ) := by
    norm_num [minCoverageResolved]
  rw [hcov]
  have h75 : (⌊((50000 + 50000 : ℕ) : ℚ) * ((3 : ℚ) / 4)⌋).toNat = 75000 := by
    have hf : (⌊((50000 + 50000 : ℕ) : ℚ) * ((3 : ℚ) / 4)⌋) = (75000 : ℤ) := by
      norm_num
    rw [hf]
    rfl
  have hval : layerBudgets2 50000 50000 50000 ((3 : ℚ) / 4) = (37500, 37500) := by
    unfold layerBudgets2
    dsimp only
    rw [h75]
    have h37 : (⌊((min (50000 + 50000) (max 50000 75000) : ℕ) : ℚ)
        * (((50000 : ℕ) : ℚ) / ((50000 + 50000 : ℕ) : ℚ))⌋).toNat = 37500 := by
      have hmin : (min (50000 + 50000) (max 50000 75000) : ℕ) = 75000 := by norm_num
      rw [hmin]
      have hf : (⌊((75000 : ℕ) : ℚ) * (((50000 : ℕ) : ℚ) / ((50000 + 50000 : ℕ) : ℚ))⌋)
          = (37500 : ℤ) := by
        norm_num
      rw [hf]
      rfl
    rw [h37]
    norm_num
  rw [hval]
  norm_num

/-! ### Flower arrangement generator (flowerArrangement module of seedData)

The generator is driven by an injected rand() closure and the JavaScript
Math functions.  The stream is embedded as an output function with an
explicit call counter threaded in source order; cos, sin, pow, sqrt and
pi are abstract parameters bundled in JsMath, since the placement
invariants (minimum gap, depth sorting) hold for arbitrary values. -/

structure ArrangementPoint where
  x : ℚ
  y : ℚ
  depth : ℚ
  spriteIndex : ℤ
  rotation : ℚ
  size : ℚ

structure ArrangementGuide where
  centerX : ℚ
  centerY : ℚ
  radiusX : ℚ
  radiusY : ℚ

/-- Abstract interface of the Math functions used by the arrangement. -/
structure JsMath where
  pi : ℚ
  cos : ℚ → ℚ
  sin : ℚ → ℚ
  pow : ℚ → ℚ → ℚ
  sqrt : ℚ → ℚ

/-- clamp(value, min, max) = Math.max(min, Math.min(max, value)). -/
def clamp (value lo hi : ℚ) : ℚ := max lo (min hi value)

/-- distanceSquared of two centers, dx*dx + dy*dy. -/
def distanceSquared (ax ay qx qy : ℚ) : ℚ :=
  (ax - qx) * (ax - qx) + (ay - qy) * (ay - qy)

def lerp (a b t : ℚ) : ℚ := a + (b - a) * t

/-- pickAngle: with probability frontBias an angle in the front half,
otherwise in the back half; consumes two stream draws. -/
def pickAngle (m : JsMath) (r : ℕ → ℚ) (frontBias : ℚ) (c : ℕ) : ℚ × ℕ :=
  if r c < frontBias then (r (c + 1) * m.pi, c + 2) else (m.pi + r (c + 1) * m.pi, c + 2)

/-- sampleNearWithFarTail: mostly-near power sampling with an occasional
far tail; returns the sample and the advanced call counter. -/
def sampleNearWithFarTail (m : JsMath) (r : ℕ → ℚ) (lo hi dispersion : ℚ) (c : ℕ) : ℚ × ℕ :=
  let span := max 0 (hi - lo)
  if span ≤ 0 then (lo, c)
  else
    let nearPower := lerp 3.2 2.05 dispersion
    let t := m.pow (r c) nearPower
    let farChance := 0.08 + dispersion * 0.24
    if r (c + 1) < farChance then
      let farStart := 0.72 + dispersion * 0.18
      (lo + span * (farStart + r (c + 2) * (1 - farStart)), c + 3)
    else (lo + span * t, c + 2)

structure RingBuildOptions where
  minGap : ℚ
  jitterMin : ℚ
  jitterMax : ℚ
  verticalJitter : ℚ
  tangentJitterFactor : ℚ
  sizeMin : ℚ
  sizeMax : ℚ
  spriteCount : ℕ
  frontBias : ℚ
  dispersion : ℚ

/-- One candidate of the rejection loop: the angle pick, the projection
onto the guide ellipse, and the radial, tangential and vertical jitters,
in source order of stream consumption.  Returns (x, y, sinA, c') where
sinA is the depth of the candidate and c' the advanced call counter. -/
def ringCandidate (m : JsMath) (r : ℕ → ℚ) (guide : ArrangementGuide)
    (o : RingBuildOptions) (c : ℕ) : ℚ × ℚ × ℚ × ℕ :=
  let tangentJitter := o.minGap * o.tangentJitterFactor
  let ac := pickAngle m r o.frontBias c
  let cosA := m.cos ac.1
  let sinA := m.sin ac.1
  let ringX := guide.centerX + cosA * guide.radiusX
  let ringY := guide.centerY + sinA * guide.radiusY
  let jc := sampleNearWithFarTail m r o.jitterMin o.jitterMax o.dispersion ac.2
  let jitterSign : ℚ := if r jc.2 < 0.68 then 1 else -1
  let radialJitter := jc.1 * jitterSign
  let tangentOffset := (r (jc.2 + 1) - 0.5) * 2 * tangentJitter
  let vc := sampleNearWithFarTail m r (o.verticalJitter * 0.2) (o.verticalJitter * 1.45)
    o.dispersion (jc.2 + 2)
  let yOffset := (r vc.2 - 0.5) * 2 * vc.1
  let x := ringX + cosA * radialJitter + (-sinA) * tangentOffset
  let y := ringY + sinA * radialJitter + cosA * tangentOffset * 0.2 + yOffset
  (x, y, sinA, vc.2 + 1)

/-- The rejection-sampling loop of buildRingPoints: fuel is the number
of remaining attempts (count * 140 at the start), pts the accepted
points so far, c the stream call counter.  A candidate is accepted only
if its squared distance to every point of the existing collision set and
every point already accepted in this ring is at least minGap squared;
otherwise the attempt is simply consumed. -/
def buildRingAux (m : JsMath) (r : ℕ → ℚ) (existing : List ArrangementPoint)
    (count : ℕ) (guide : ArrangementGuide) (o : RingBuildOptions) :
    ℕ → List ArrangementPoint → ℕ → List ArrangementPoint × ℕ
  | 0, pts, c => (pts, c)
  | fuel + 1, pts, c =>
    if count ≤ pts.length then (pts, c)
    else
      let cand := ringCandidate m r guide o c
      let blocked :=
        (existing.any fun q =>
          decide (distanceSquared cand.1 cand.2.1 q.x q.y < o.minGap * o.minGap))
          || (pts.any fun q =>
            decide (distanceSquared cand.1 cand.2.1 q.x q.y < o.minGap * o.minGap))
      if blocked then buildRingAux m r existing count guide o fuel pts cand.2.2.2
      else
        let pt : ArrangementPoint :=
          { x := cand.1, y := cand.2.1, depth := cand.2.2.1,
            spriteIndex := ⌊r cand.2.2.2 * ((max 1 o.spriteCount : ℕ) : ℚ)⌋,
            rotation := (r (cand.2.2.2 + 1) - 0.5) * 0.26,
            size := (o.sizeMin + r (cand.2.2.2 + 2) * (o.sizeMax - o.sizeMin))
              * (0.9 + max 0 cand.2.2.1 * 0.22) }
        buildRingAux m r existing count guide o fuel (pts ++ [pt]) (cand.2.2.2 + 3)

/-- buildRingPoints: runs the rejection loop with the attempt cap
count * 140, starting from an empty accepted list. -/
def buildRingPoints (m : JsMath) (r : ℕ → ℚ) (existing : List ArrangementPoint)
    (count : ℕ) (guide : ArrangementGuide) (o : RingBuildOptions) (c : ℕ) :
    List ArrangementPoint × ℕ :=
  buildRingAux m r existing count guide o (count * 140) [] c

theorem distanceSquared_comm (ax ay qx qy : ℚ) :
    distanceSquared ax ay qx qy = distanceSquared qx qy ax ay := by
  unfold distanceSquared
  ring

theorem buildRingAux_inv (m : JsMath) (r : ℕ → ℚ) (existing : List ArrangementPoint)
    (count : ℕ) (guide : ArrangementGuide) (o : RingBuildOptions) :
    ∀ (fuel : ℕ) (pts : List ArrangementPoint) (c : ℕ),
      List.Pairwise (fun p q => o.minGap * o.minGap ≤ distanceSquared p.x p.y q.x q.y) pts →
      pts.length ≤ count →
      List.Pairwise (fun p q => o.minGap * o.minGap ≤ distanceSquared p.x p.y q.x q.y)
          (buildRingAux m r existing count guide o fuel pts c).1
        ∧ (buildRingAux m r existing count guide o fuel pts c).1.length ≤ count
  | 0, _, _, hp, hl => ⟨hp, hl⟩
  | fuel + 1, pts, c, hp, hl => by
    rw [buildRingAux]
    split
    · exact ⟨hp, hl⟩
    · rename_i hcount
      dsimp only
      split
      · exact buildRingAux_inv m r existing count guide o fuel pts _ hp hl
      · rename_i hblocked
        rw [Bool.or_eq_true, not_or] at hblocked
        obtain ⟨-, hpts⟩ := hblocked
        have hfar : ∀ q ∈ pts,
            o.minGap * o.minGap
              ≤ distanceSquared q.x q.y (ringCandidate m r guide o c).1
                  (ringCandidate m r guide o c).2.1 := by
          intro q hq
          have hq2 := List.any_eq_false.mp (Bool.of_not_eq_true hpts) q hq
          rw [decide_eq_true_eq] at hq2
          rw [distanceSquared_comm]
          exact not_lt.mp hq2
        apply buildRingAux_inv m r existing count guide o fuel _ _
        · rw [List.pairwise_append]
          refine ⟨hp, List.pairwise_singleton _ _, ?_⟩
          intro a ha b hb
          rw [List.mem_singleton] at hb
          subst hb
          exact hfar a ha
        · rw [List.length_append]
          simp only [List.length_singleton]
          omega

/-- C7: any two points accepted into the same ring by buildRingPoints
are at squared distance at least minGap squared from each other (for a
nonnegative gap this is exactly a Euclidean distance of at least
minGap), and at most count points are produced: slots whose attempts are
exhausted are omitted, never placed in violation.  The statement holds
for arbitrary streams and arbitrary interpretations of the Math
functions. -/
theorem C7_ring_min_gap :
    ∀ (m : JsMath) (r : ℕ → ℚ) (existing : List ArrangementPoint) (count : ℕ)
      (guide : ArrangementGuide) (o : RingBuildOptions) (c : ℕ),
      List.Pairwise (fun p q => o.minGap * o.minGap ≤ distanceSquared p.x p.y q.x q.y)
          (buildRingPoints m r existing count guide o c).1
        ∧ (buildRingPoints m r existing count guide o c).1.length ≤ count := by
  intro m r existing count guide o c
  unfold buildRingPoints
  exact buildRingAux_inv m r existing count guide o (count * 140) [] c
    (List.Pairwise.nil) (by simp)

structure FlowerArrangementOptions where
  centerX : ℚ
  centerY : ℚ
  flowerCount : ℚ
  bouquetScale : ℚ
  bouquetAspect : ℚ
  bouquetLift : ℚ
  innerLift : ℚ
  frontViewRatio : ℚ
  bouquetDispersion : ℚ
  spriteCount : ℕ
  bouquetDensity : Option ℚ

structure FlowerArrangementResult where
  points : List ArrangementPoint
  outerGuide : ArrangementGuide
  innerGuide : ArrangementGuide

/-- JavaScript Math.round for the nonnegative values used here. -/
def jsRound (q : ℚ) : ℤ := ⌊q + 1 / 2⌋

/-- The depth comparison induced by the sort comparator
(a, b) => a.depth - b.depth. -/
def depthLe (a b : ArrangementPoint) : Prop := a.depth ≤ b.depth

instance : DecidableRel depthLe := fun a b => inferInstanceAs (Decidable (a.depth ≤ b.depth))

instance : IsTotal ArrangementPoint depthLe := ⟨fun a b => le_total a.depth b.depth⟩

instance : IsTrans ArrangementPoint depthLe := ⟨fun _ _ _ h1 h2 => le_trans h1 h2⟩

/-- generateFlowerArrangement: derives density, the outer and inner
guide ellipses, the outer/inner split and the jitter and size ranges,
builds the outer ring first, seeds the inner ring collision set with it,
concatenates both rings and sorts by depth ascending.  The final
Array.prototype.sort with the numeric comparator on depth is modelled by
a sort with respect to depthLe (any correct comparison sort yields the
same sortedness and content guarantees relied on here). -/
def generateFlowerArrangement (m : JsMath) (r : ℕ → ℚ) (o : FlowerArrangementOptions)
    (c0 : ℕ) : FlowerArrangementResult × ℕ :=
  let flowerCount : ℤ := max 6 ⌊o.flowerCount⌋
  let bouquetScale := clamp o.bouquetScale 0 1
  let bouquetAspect := clamp o.bouquetAspect 0 1
  let dispersion := clamp o.bouquetDispersion 0.05 1
  let frontViewRatio := clamp o.frontViewRatio 0.1 0.8
  let countNorm := clamp (((flowerCount : ℚ) - 10) / 50) 0 1
  let autoDensityBase := 0.76 - countNorm * 0.24
  let autoDensityJitter := (r c0 - 0.5) * 0.14
  let autoDensity := clamp (autoDensityBase + autoDensityJitter) 0.38 0.88
  let density :=
    match o.bouquetDensity with
    | some d => clamp (autoDensity * 0.7 + d * 0.3) 0.3 0.9
    | none => autoDensity
  let targetCount : ℚ := 42
  let countRatio := clamp ((flowerCount : ℚ) / targetCount) 0.4 1.4
  let circleScale := m.pow countRatio 0.88
  let widthBase := lerp 260 440 countNorm
  let widthScale := lerp 0.78 1.28 bouquetScale
  let widthNoise := 1 + (r (c0 + 1) - 0.5) * 0.18
  let outerWidth := max 110 (widthBase * widthScale * widthNoise * circleScale)
  let aspectBase := lerp 0.36 0.76 bouquetAspect
  let aspectNoise := 1 + (r (c0 + 2) - 0.5) * 0.14
  let rawHeight := outerWidth * aspectBase * aspectNoise
  let frontHeight := min rawHeight (outerWidth * frontViewRatio)
  let outerHeight := max 28 (frontHeight * circleScale)
  let outerGuide : ArrangementGuide :=
    { centerX := o.centerX, centerY := o.centerY - o.bouquetLift,
      radiusX := outerWidth * 0.5, radiusY := outerHeight * 0.5 }
  let outerShareNoise := (r (c0 + 3) - 0.5) * 0.08
  let outerShare := clamp (0.62 + (0.5 - density) * 0.12 + outerShareNoise) 0.54 0.78
  let outerCount : ℤ :=
    max 4 (min (flowerCount - 2) (jsRound ((flowerCount : ℚ) * outerShare)))
  let innerCount : ℤ := max 2 (flowerCount - outerCount)
  let innerScaleNoise := (r (c0 + 4) - 0.5) * 0.1
  let innerScale := clamp (0.5 + density * 0.24 + innerScaleNoise) 0.44 0.84
  let innerLiftJitter := (r (c0 + 5) - 0.5) * 2 * max 4 (outerGuide.radiusY * 0.12)
  let effectiveInnerLift := max 0 (o.innerLift + innerLiftJitter)
  let innerGuide : ArrangementGuide :=
    { centerX := outerGuide.centerX, centerY := outerGuide.centerY - effectiveInnerLift,
      radiusX := outerGuide.radiusX * innerScale, radiusY := outerGuide.radiusY * innerScale }
  let areaOuter := m.pi * outerGuide.radiusX * outerGuide.radiusY
  let areaInner := m.pi * innerGuide.radiusX * innerGuide.radiusY * 0.9
  let totalArea := areaOuter + areaInner
  let baseSpacing := m.sqrt (totalArea / (flowerCount : ℚ))
  let offsetDamping := lerp 1.08 0.66 countNorm
  let minGap := max 2 (baseSpacing * lerp 1.26 0.78 density)
  let jitterMin := max 1.5 (minGap * (0.1 + 0.22 * dispersion) * offsetDamping)
  let jitterMax := max (jitterMin + 1) (minGap * (0.5 + 1.55 * dispersion) * offsetDamping)
  let verticalJitter :=
    max 4 (outerGuide.radiusY * (0.3 + 0.9 * dispersion) * lerp 0.92 0.56 countNorm)
  let tangentJitterFactor := (0.26 + 0.75 * dispersion) * lerp 0.9 0.64 countNorm
  let baseFlowerSize := lerp 64 92 countNorm * lerp 1.08 1.38 bouquetScale
  let sizeSpread := lerp 0.42 0.62 dispersion
  let sizeMin := max 20 (baseFlowerSize * (1 - sizeSpread * 0.45))
  let sizeMax := max (sizeMin + 8) (baseFlowerSize * (1 + sizeSpread * 1.65))
  let ringOptions : RingBuildOptions :=
    { minGap := minGap, jitterMin := jitterMin, jitterMax := jitterMax,
      verticalJitter := verticalJitter, tangentJitterFactor := tangentJitterFactor,
      sizeMin := sizeMin, sizeMax := sizeMax, spriteCount := o.spriteCount,
      frontBias := 0.82, dispersion := dispersion }
  let outerRun := buildRingPoints m r [] outerCount.toNat outerGuide ringOptions (c0 + 6)
  let innerRun := buildRingPoints m r outerRun.1 innerCount.toNat innerGuide
    { ringOptions with
        minGap := max 2 (minGap * 0.88), jitterMin := jitterMin * 0.6,
        jitterMax := jitterMax * 0.76, verticalJitter := verticalJitter * 0.72,
        sizeMin := sizeMin * 0.92, sizeMax := sizeMax * 1.02, frontBias := 0.68 }
    outerRun.2
  ({ points := List.insertionSort depthLe (outerRun.1 ++ innerRun.1),
     outerGuide := outerGuide, innerGuide := innerGuide }, innerRun.2)

/-- C8: the point list returned by generateFlowerArrangement - the
concatenation of the outer and inner rings, sorted - is non-decreasing
in depth, giving back-to-front painter-algorithm draw order; this holds
for every option record, every stream and every interpretation of the
Math functions. -/
theorem C8_depth_sorted :
    ∀ (m : JsMath) (r : ℕ → ℚ) (o : FlowerArrangementOptions) (c0 : ℕ),
      List.Sorted depthLe (generateFlowerArrangement m r o c0).1.points := by
  intro m r o c0
  unfold generateFlowerArrangement
  dsimp only
  exact List.sorted_insertionSort depthLe _

end Mercury
